import Mathlib

/-
  Verification development for the sllurp LLRP client library
  (src/sllurp/llrp.py and src/sllurp/inventory.py).

  The embedding below models:
  * the LLRP frame codec (LLRPMessage.serialize / LLRPMessage.deserialize),
  * the capability negotiation helpers (parsePowerTable, get_tx_power,
    parseCapabilities and its reader-mode scan),
  * the per-connection protocol engine (Deferred, processDeferreds,
    handleMessage, startInventory, pause, resume, stopPolitely) as an
    executable step function on an explicit protocol state.

  Bytes are modelled as lists of naturals below 256; machine integers are
  Nat / Int with explicit bounds where Python's struct module would raise.
-/

namespace Sllurp

/-- The closed set of LLRP message names this module sends or receives
    (the keys of the Message_struct codec table that llrp.py uses). -/
inductive MsgName
  | KEEPALIVE
  | KEEPALIVE_ACK
  | RO_ACCESS_REPORT
  | READER_EVENT_NOTIFICATION
  | GET_READER_CAPABILITIES
  | GET_READER_CAPABILITIES_RESPONSE
  | ADD_ROSPEC
  | ADD_ROSPEC_RESPONSE
  | ENABLE_ROSPEC
  | ENABLE_ROSPEC_RESPONSE
  | DISABLE_ROSPEC
  | DISABLE_ROSPEC_RESPONSE
  | DELETE_ROSPEC
  | DELETE_ROSPEC_RESPONSE
  | ADD_ACCESSSPEC
  | ADD_ACCESSSPEC_RESPONSE
  | ENABLE_ACCESSSPEC
  | ENABLE_ACCESSSPEC_RESPONSE
  | DISABLE_ACCESSSPEC
  | DISABLE_ACCESSSPEC_RESPONSE
  | DELETE_ACCESSSPEC
  | DELETE_ACCESSSPEC_RESPONSE
deriving DecidableEq

/-- Modelled from the spec: util.py (not under src/) provides the helper
    BITMASK used by llrp.py; per the spec's wire format the serialize and
    deserialize code masks the 3-bit version and the 10-bit type with it,
    so BITMASK n is the n-bit all-ones mask. -/
def BITMASK (n : Nat) : Nat := 2 ^ n - 1

/-- Length in bytes of the fixed LLRP header, struct format !HII
    (LLRPMessage.full_hdr_len == 10). -/
def full_hdr_len : Nat := 10

/-- Big-endian encoding of a 16-bit value, as struct.pack !H does. -/
def pack16 (x : Nat) : List Nat := [x / 2 ^ 8 % 2 ^ 8, x % 2 ^ 8]

/-- Big-endian encoding of a 32-bit value, as struct.pack !I does. -/
def pack32 (x : Nat) : List Nat :=
  [x / 2 ^ 24 % 2 ^ 8, x / 2 ^ 16 % 2 ^ 8, x / 2 ^ 8 % 2 ^ 8, x % 2 ^ 8]

/-- Big-endian decoding of two bytes, as struct.unpack !H does. -/
def unpack16 (b0 b1 : Nat) : Nat := b0 * 2 ^ 8 + b1

/-- Big-endian decoding of four bytes, as struct.unpack !I does. -/
def unpack32 (b0 b1 b2 b3 : Nat) : Nat :=
  ((b0 * 2 ^ 8 + b1) * 2 ^ 8 + b2) * 2 ^ 8 + b3

/-- Modelled from the spec: one row of the Message_struct codec table of
    llrp_proto.py (not under src/): a message name, its LLRP type code,
    and the payload encoder / decoder pair.  The payload field type F is
    abstract; the spec's codec round-trip law (decode of encode is the
    identity up to mapping order and default-field elimination) is taken
    as a hypothesis on a row where a claim needs it. -/
structure CodecEntry (F : Type) where
  name : MsgName
  typeCode : Nat
  enc : F → List Nat
  dec : List Nat → Option F

/-- Message_struct lookup by name (serialize's encoder lookup and
    deserialize's decoder lookup). -/
def findName {F : Type} (tbl : List (CodecEntry F)) (n : MsgName) :
    Option (CodecEntry F) :=
  tbl.find? fun e => decide (e.name = n)

/-- Message_Type2Name lookup by type code (deserialize's name lookup). -/
def findType {F : Type} (tbl : List (CodecEntry F)) (t : Nat) :
    Option (CodecEntry F) :=
  tbl.find? fun e => decide (e.typeCode = t)

/-- A message value: the single key of an LLRPMessage msgdict together
    with its framing fields Ver, Type and ID and the remaining payload
    fields (abstract). -/
structure MsgVal (F : Type) where
  name : MsgName
  Ver : Nat
  typ : Nat
  ID : Nat
  fields : F
deriving DecidableEq

/-- LLRPMessage.serialize: look up the encoder for the message's name,
    encode the payload, and emit the 10-byte header
    pack(!HII, (ver and 7) shl 10 or (type and 1023), len(data)+10, id)
    followed by the payload.  none models the LLRPError raised when the
    name has no encoder, and the struct.error raised when the id or the
    length does not fit 32 bits. -/
def serialize {F : Type} (tbl : List (CodecEntry F)) (v : MsgVal F) :
    Option (List Nat) :=
  match findName tbl v.name with
  | none => none
  | some e =>
    let ver := v.Ver &&& BITMASK 3
    let msgtype := v.typ &&& BITMASK 10
    let data := e.enc v.fields
    if v.ID < 2 ^ 32 ∧ data.length + full_hdr_len < 2 ^ 32 then
      some (pack16 ((ver <<< 10) ||| msgtype) ++
            pack32 (data.length + full_hdr_len) ++ pack32 v.ID ++ data)
    else none

/-- The version extraction of LLRPMessage.deserialize:
    (msgtype shr 10) and BITMASK(3). -/
def hdrVer (hdr16 : Nat) : Nat := (hdr16 >>> 10) &&& BITMASK 3

/-- The type extraction of LLRPMessage.deserialize:
    msgtype and BITMASK(10). -/
def hdrType (hdr16 : Nat) : Nat := hdr16 &&& BITMASK 10

/-- LLRPMessage.deserialize: unpack the 10-byte header, extract version
    and type, look the type up in Message_Type2Name and the name up in
    Message_struct, decode data[10:length] as the body, and overwrite the
    Ver, Type and ID keys of the decoded mapping with the header fields.
    none models struct.error on a short buffer, the LLRPError on an
    unknown type code, and a decoder failure (caught in the source, which
    then leaves msgdict unset). -/
def deserialize {F : Type} (tbl : List (CodecEntry F)) (data : List Nat) :
    Option (MsgVal F) :=
  match data with
  | b0 :: b1 :: b2 :: b3 :: b4 :: b5 :: b6 :: b7 :: b8 :: b9 :: _ =>
    let hdr16 := unpack16 b0 b1
    let length := unpack32 b2 b3 b4 b5
    let msgid := unpack32 b6 b7 b8 b9
    match findType tbl (hdrType hdr16) with
    | none => none
    | some e0 =>
      match findName tbl e0.name with
      | none => none
      | some e =>
        let body := (data.drop full_hdr_len).take (length - full_hdr_len)
        match e.dec body with
        | none => none
        | some f => some ⟨e0.name, hdrVer hdr16, hdrType hdr16, msgid, f⟩
  | _ => none

/-! Arithmetic facts about the header packing. -/

theorem unpack16_pack16 (x : Nat) (h : x < 2 ^ 16) :
    unpack16 (x / 2 ^ 8 % 2 ^ 8) (x % 2 ^ 8) = x := by
  unfold unpack16; omega

theorem unpack32_pack32 (x : Nat) (h : x < 2 ^ 32) :
    unpack32 (x / 2 ^ 24 % 2 ^ 8) (x / 2 ^ 16 % 2 ^ 8) (x / 2 ^ 8 % 2 ^ 8)
      (x % 2 ^ 8) = x := by
  unfold unpack32; omega

/-- The packed 16-bit header word of serialize, in plain arithmetic:
    version at bits 12..10, type in the 10 low bits. -/
theorem serialize_hdr16_eq (ver typ : Nat) (hv : ver < 2 ^ 3)
    (ht : typ < 2 ^ 10) :
    ((ver &&& BITMASK 3) <<< 10) ||| (typ &&& BITMASK 10) =
      ver * 2 ^ 10 + typ := by
  have h3 : ver &&& BITMASK 3 = ver := by
    show ver &&& 2 ^ 3 - 1 = ver
    rw [Nat.and_pow_two_sub_one_eq_mod]; omega
  have h10 : typ &&& BITMASK 10 = typ := by
    show typ &&& 2 ^ 10 - 1 = typ
    rw [Nat.and_pow_two_sub_one_eq_mod]; omega
  rw [h3, h10, Nat.shiftLeft_eq, Nat.mul_comm, ← Nat.mul_add_lt_is_or ht,
    Nat.mul_comm]

theorem hdrVer_eq (ver typ : Nat) (hv : ver < 2 ^ 3) (ht : typ < 2 ^ 10) :
    hdrVer (ver * 2 ^ 10 + typ) = ver := by
  unfold hdrVer
  show (ver * 2 ^ 10 + typ) >>> 10 &&& 2 ^ 3 - 1 = ver
  rw [Nat.shiftRight_eq_div_pow, Nat.and_pow_two_sub_one_eq_mod]
  omega

theorem hdrType_eq (ver typ : Nat) (ht : typ < 2 ^ 10) :
    hdrType (ver * 2 ^ 10 + typ) = typ := by
  unfold hdrType
  show (ver * 2 ^ 10 + typ) &&& 2 ^ 10 - 1 = typ
  rw [Nat.and_pow_two_sub_one_eq_mod]
  omega

/-- C1: round-trip law of the framing codec.  For a well-formed message
    value v (version fits 3 bits, type fits 10 bits and maps back to v's
    name in the type-to-name table, id and frame length fit 32 bits)
    whose name has an encoder and a decoder in the codec table, and whose
    payload codec round-trips (the spec's codec law for the payload
    tables of llrp_proto.py, which are not under src/), deserializing the
    bytes produced by serialize yields the message value back: same name,
    same Ver, Type and ID, same field mapping. -/
theorem serialize_deserialize_roundtrip {F : Type} (tbl : List (CodecEntry F))
    (v : MsgVal F) (e e0 : CodecEntry F)
    (hname : findName tbl v.name = some e)
    (htype : findType tbl v.typ = some e0)
    (h0name : e0.name = v.name)
    (hcodec : e.dec (e.enc v.fields) = some v.fields)
    (hver : v.Ver < 2 ^ 3) (htyp : v.typ < 2 ^ 10) (hid : v.ID < 2 ^ 32)
    (hlen : (e.enc v.fields).length + full_hdr_len < 2 ^ 32) :
    (serialize tbl v).bind (deserialize tbl) = some v := by
  obtain ⟨n, ver, typ, id, f⟩ := v
  simp only at hname htype h0name hcodec hver htyp hid hlen
  have hH : ver * 2 ^ 10 + typ < 2 ^ 16 := by omega
  unfold serialize
  rw [hname]
  simp only
  rw [if_pos ⟨hid, hlen⟩, serialize_hdr16_eq ver typ hver htyp]
  rw [Option.some_bind]
  simp only [pack16, pack32, List.cons_append, List.nil_append]
  unfold deserialize
  simp only
  rw [unpack16_pack16 _ hH, unpack32_pack32 _ (by omega),
    unpack32_pack32 _ hid, hdrType_eq ver typ htyp, hdrVer_eq ver typ hver htyp,
    htype]
  simp only [h0name]
  rw [hname]
  simp only [full_hdr_len, Nat.add_sub_cancel]
  have hdrop :
      List.drop 10
        ((ver * 2 ^ 10 + typ) / 2 ^ 8 % 2 ^ 8 :: (ver * 2 ^ 10 + typ) % 2 ^ 8 ::
          ((e.enc f).length + 10) / 2 ^ 24 % 2 ^ 8 ::
          ((e.enc f).length + 10) / 2 ^ 16 % 2 ^ 8 ::
          ((e.enc f).length + 10) / 2 ^ 8 % 2 ^ 8 ::
          ((e.enc f).length + 10) % 2 ^ 8 ::
          id / 2 ^ 24 % 2 ^ 8 :: id / 2 ^ 16 % 2 ^ 8 :: id / 2 ^ 8 % 2 ^ 8 ::
          id % 2 ^ 8 :: e.enc f) = e.enc f := rfl
  rw [hdrop, List.take_length, hcodec]

/-- A concrete codec-table row for KEEPALIVE_ACK (type code 72, empty
    payload), used to instantiate the codec theorems. -/
def kaEntry : CodecEntry Unit :=
  ⟨.KEEPALIVE_ACK, 72, fun _ => [], fun b => if b = [] then some () else none⟩

/-- A one-row codec table holding the KEEPALIVE_ACK row. -/
def kaTbl : List (CodecEntry Unit) := [kaEntry]

/-- The KEEPALIVE_ACK message that send_KEEPALIVE_ACK builds:
    Ver 1, Type 72, ID 0, empty payload. -/
def kaMsg : MsgVal Unit := ⟨.KEEPALIVE_ACK, 1, 72, 0, ()⟩

/-- Witness for the round-trip theorem: the KEEPALIVE_ACK message through
    the one-row table. -/
theorem serialize_deserialize_roundtrip_witness :
    findName kaTbl kaMsg.name = some kaEntry ∧
    kaEntry.dec (kaEntry.enc kaMsg.fields) = some kaMsg.fields ∧
    (serialize kaTbl kaMsg).bind (deserialize kaTbl) = some kaMsg :=
  ⟨rfl, rfl,
    serialize_deserialize_roundtrip kaTbl kaMsg kaEntry kaEntry rfl rfl rfl rfl
      (by decide) (by decide) (by decide) (by decide)⟩

/-- The 16-bit header layout asserted by the specification: version in
    the top 3 bits, then the 10-bit type, then 3 reserved bits. -/
def specHdr16 (ver typ : Nat) : Nat := (ver <<< 13) ||| (typ <<< 3)

/-- C2 counterexample: serializing the KEEPALIVE_ACK message (Ver 1,
    Type 72) produces first header bytes 0x04 0x48, i.e. the 16-bit word
    1096 = 1 shl 10 + 72, not the word 8768 the claimed layout
    (version : 3 | type : 10 | reserved : 3) would give: the code packs
    the version at bits 12..10 with the reserved bits on top. -/
theorem header_layout_counterexample :
    (serialize kaTbl kaMsg).map (fun l => l.take 2) = some [4, 72] ∧
    unpack16 4 72 ≠ specHdr16 1 72 := by
  constructor
  · rfl
  · decide

/-- C2 amended: serialize emits a 16-bit first word equal to
    ver * 2 ^ 10 + type — from most significant to least significant bit:
    3 reserved zero bits (the word is below 2 ^ 13), the 3-bit version,
    the 10-bit type — followed by the 32-bit length 10 + payload length
    and the 32-bit id; deserialize's extractors recover the version and
    the type from those same positions. -/
theorem header_layout_amended {F : Type} (tbl : List (CodecEntry F))
    (v : MsgVal F) (e : CodecEntry F)
    (hname : findName tbl v.name = some e)
    (hver : v.Ver < 2 ^ 3) (htyp : v.typ < 2 ^ 10) (hid : v.ID < 2 ^ 32)
    (hlen : (e.enc v.fields).length + full_hdr_len < 2 ^ 32) :
    serialize tbl v =
      some (pack16 (v.Ver * 2 ^ 10 + v.typ) ++
            pack32 ((e.enc v.fields).length + full_hdr_len) ++
            pack32 v.ID ++ e.enc v.fields) ∧
    v.Ver * 2 ^ 10 + v.typ < 2 ^ 13 ∧
    hdrVer (v.Ver * 2 ^ 10 + v.typ) = v.Ver ∧
    hdrType (v.Ver * 2 ^ 10 + v.typ) = v.typ := by
  refine ⟨?_, by omega, hdrVer_eq v.Ver v.typ hver htyp,
    hdrType_eq v.Ver v.typ htyp⟩
  unfold serialize
  rw [hname]
  simp only
  rw [if_pos ⟨hid, hlen⟩, serialize_hdr16_eq v.Ver v.typ hver htyp]

/-- Witness for the amended header-layout theorem at the KEEPALIVE_ACK
    message. -/
theorem header_layout_amended_witness :
    findName kaTbl kaMsg.name = some kaEntry ∧
    (serialize kaTbl kaMsg =
      some (pack16 (kaMsg.Ver * 2 ^ 10 + kaMsg.typ) ++
            pack32 ((kaEntry.enc kaMsg.fields).length + full_hdr_len) ++
            pack32 kaMsg.ID ++ kaEntry.enc kaMsg.fields) ∧
    kaMsg.Ver * 2 ^ 10 + kaMsg.typ < 2 ^ 13 ∧
    hdrVer (kaMsg.Ver * 2 ^ 10 + kaMsg.typ) = kaMsg.Ver ∧
    hdrType (kaMsg.Ver * 2 ^ 10 + kaMsg.typ) = kaMsg.typ) :=
  ⟨rfl,
    header_layout_amended kaTbl kaMsg kaEntry rfl (by decide) (by decide)
      (by decide) (by decide)⟩

/-! Capability negotiation: parsePowerTable, get_tx_power and the
    reader-mode scan of LLRPProtocol.parseCapabilities. -/

/-- The error kinds parseCapabilities and its helpers can raise:
    assertionFailed is Python's assert on an empty power table,
    invalidTxPower the LLRPError of get_tx_power, indexError the
    uncaught IndexError of parsePowerTable, valueError Python's max()
    on an empty antenna list, keyError the missing
    UHFC1G2RFModeTableEntry0 fallback key. -/
inductive CapsError
  | assertionFailed
  | invalidTxPower
  | indexError
  | valueError
  | keyError
deriving DecidableEq

/-- Python's max over a list (the source applies it to the nonempty
    tx_power_table; the empty case is never taken behind the assert). -/
def pyMax (l : List ℚ) : ℚ :=
  match l with
  | [] => 0
  | h :: t => t.foldl max h

/-- Python list indexing with its negative-index semantics: l[i] is
    l[len(l) + i] for negative i, and an IndexError (none) when the
    resulting position is outside the list. -/
def pyListGet (l : List ℚ) (i : Int) : Option ℚ :=
  let j := if i < 0 then (l.length : Int) + i else i
  if 0 ≤ j then l.get? j.toNat else none

/-- LLRPProtocol.get_tx_power: validates tx_power against
    tx_power_table.  tx_power 0 selects the maximum power (first index
    holding the maximum value); any other index is looked up directly
    with Python list indexing, and only an IndexError becomes the
    LLRPError for an invalid tx_power. -/
def get_tx_power (tx_power_table : List ℚ) (tx_power : Int) :
    Except CapsError (Int × ℚ) :=
  if tx_power_table.isEmpty then .error .assertionFailed
  else if tx_power = 0 then
    let max_power_dbm := pyMax tx_power_table
    .ok ((tx_power_table.indexOf max_power_dbm : Nat), max_power_dbm)
  else
    match pyListGet tx_power_table tx_power with
    | some power_dbm => .ok (tx_power, power_dbm)
    | none => .error .invalidTxPower

/-- One row of the UHFRFModeTable: the Mod and MaxTari keys the scan
    inspects, plus an identifier standing for the remaining keys of the
    entry dictionary. -/
structure ModeEntry where
  Mod : Nat
  MaxTari : Nat
  eid : Nat
deriving DecidableEq

/-- The per-entry match test of parseCapabilities: the entry's Mod must
    equal the requested modulation's code, and when the requested Tari
    is nonzero the entry's MaxTari must equal it. -/
def modeMatch (modCode tari : Nat) (v : ModeEntry) : Bool :=
  decide (v.Mod = modCode) && (decide (tari = 0) || decide (v.MaxTari = tari))

/-- The scan loop of parseCapabilities over the UHFRFModeTable: each
    matching entry overwrites reader_mode, so the loop keeps the last
    match (there is no break). -/
def scanModeTable (table : List ModeEntry) (modCode tari : Nat) :
    Option ModeEntry :=
  table.foldl
    (fun reader_mode v => if modeMatch modCode tari v then some v
      else reader_mode)
    none

/-- The reader-mode selection of parseCapabilities: the scan result, or
    the table's first entry (key UHFC1G2RFModeTableEntry0) when nothing
    matched. -/
def findReaderMode (table : List ModeEntry) (modCode tari : Nat) :
    Option ModeEntry :=
  match scanModeTable table modCode tari with
  | some e => some e
  | none => table.head?

/-- LLRPProtocol.parsePowerTable: build a table of length one more than
    the number of TransmitPowerLevelTableEntry rows, slot 0 left at the
    0 sentinel, and write value / 100 at each row's Index.  none models
    the IndexError when a row's Index falls outside the table. -/
def parsePowerTable (entries : List (Nat × Nat)) : Option (List ℚ) :=
  entries.foldlM
    (fun tbl ev =>
      if ev.1 < tbl.length then some (tbl.set ev.1 ((ev.2 : ℚ) / 100))
      else none)
    (List.replicate (entries.length + 1) 0)

/-- The capability dictionary fields parseCapabilities reads:
    GeneralDeviceCapabilities.MaxNumberOfAntennaSupported, the
    TransmitPowerLevelTableEntry rows (Index, TransmitPowerValue) and
    the UHFRFModeTable rows. -/
structure Capabilities where
  MaxNumberOfAntennaSupported : Nat
  powerEntries : List (Nat × Nat)
  UHFRFModeTable : List ModeEntry

/-- The protocol settings parseCapabilities works from: the requested
    antennas, tx_power index, modulation code
    (Modulation_Name2Type of the requested modulation) and Tari. -/
structure ProtoConfig where
  antennas : List Nat
  tx_power : Int
  modCode : Nat
  tari : Nat

/-- The instance fields parseCapabilities sets. -/
structure ParsedCaps where
  antennas : List Nat
  tx_power_table : List ℚ
  tx_power : Int
  reader_mode : ModeEntry
deriving DecidableEq

/-- LLRPProtocol.parseCapabilities: drop requested antennas above
    MaxNumberOfAntennaSupported (only when some antenna exceeds it),
    parse the power table, run setTxPower (which validates through
    get_tx_power and stores the selected index), and select the reader
    mode.  There is no emptiness check after the antenna filter. -/
def parseCapabilities (cfg : ProtoConfig) (capdict : Capabilities) :
    Except CapsError ParsedCaps :=
  match cfg.antennas with
  | [] => .error .valueError
  | a0 :: arest =>
    let maxAnt := capdict.MaxNumberOfAntennaSupported
    let antennas :=
      if arest.foldl max a0 > maxAnt then
        (a0 :: arest).filter fun ant => decide (ant ≤ maxAnt)
      else a0 :: arest
    match parsePowerTable capdict.powerEntries with
    | none => .error .indexError
    | some tx_power_table =>
      match get_tx_power tx_power_table cfg.tx_power with
      | .error e => .error e
      | .ok (tx_pow_idx, _) =>
        match findReaderMode capdict.UHFRFModeTable cfg.modCode cfg.tari with
        | none => .error .keyError
        | some reader_mode =>
          .ok ⟨antennas, tx_power_table, tx_pow_idx, reader_mode⟩

/-! Facts about foldl max, used for the maximum-selection claims. -/

theorem foldl_max_init_le {α : Type} [LinearOrder α] (l : List α) (a : α) :
    a ≤ l.foldl max a := by
  induction l generalizing a with
  | nil => simp
  | cons x xs ih =>
    simp only [List.foldl_cons]
    exact le_trans (le_max_left a x) (ih (max a x))

theorem le_foldl_max {α : Type} [LinearOrder α] (l : List α) (a x : α)
    (hx : x ∈ l) : x ≤ l.foldl max a := by
  induction l generalizing a with
  | nil => cases hx
  | cons y ys ih =>
    simp only [List.foldl_cons]
    rcases List.mem_cons.mp hx with h | h
    · subst h
      exact le_trans (le_max_right a x) (foldl_max_init_le ys (max a x))
    · exact ih (max a y) h

theorem foldl_max_mem {α : Type} [LinearOrder α] (l : List α) (a : α) :
    l.foldl max a = a ∨ l.foldl max a ∈ l := by
  induction l generalizing a with
  | nil => exact Or.inl rfl
  | cons y ys ih =>
    simp only [List.foldl_cons]
    rcases ih (max a y) with h | h
    · rcases max_choice a y with hm | hm
      · exact Or.inl (h.trans hm)
      · exact Or.inr (List.mem_cons.mpr (Or.inl (h.trans hm)))
    · exact Or.inr (List.mem_cons.mpr (Or.inr h))

/-- C4 counterexample: with the two-entry power table [0, 32], the
    requested index -1 is nonzero and lies outside [1, 1], yet
    get_tx_power raises nothing: Python's negative indexing makes the
    lookup succeed and the call returns (-1, 32). -/
theorem get_tx_power_counterexample :
    get_tx_power [0, 32] (-1) = .ok (-1, 32) ∧ (-1 : Int) < 1 := by
  exact ⟨rfl, by decide⟩

theorem get_tx_power_nonzero (table : List ℚ) (txp : Int)
    (hemp : table.isEmpty = false) (hnz : ¬ txp = 0) :
    get_tx_power table txp =
      match pyListGet table txp with
      | some v => .ok (txp, v)
      | none => .error .invalidTxPower := by
  unfold get_tx_power
  simp [hemp, hnz]

theorem pyListGet_pos (l : List ℚ) (i : Int) (h0 : 0 ≤ i)
    (hlt : i.toNat < l.length) :
    pyListGet l i = some (l.get ⟨i.toNat, hlt⟩) := by
  unfold pyListGet
  simp [show ¬ i < 0 by omega, h0, List.get?_eq_get hlt]

theorem pyListGet_pos_none (l : List ℚ) (i : Int) (h0 : 0 ≤ i)
    (hge : l.length ≤ i.toNat) :
    pyListGet l i = none := by
  unfold pyListGet
  simp only [show ¬ i < 0 by omega, if_false, if_pos h0]
  exact List.get?_eq_none.mpr hge

theorem pyListGet_neg (l : List ℚ) (i : Int) (hneg : i < 0)
    (hok : 0 ≤ (l.length : Int) + i)
    (hlt : ((l.length : Int) + i).toNat < l.length) :
    pyListGet l i = some (l.get ⟨((l.length : Int) + i).toNat, hlt⟩) := by
  unfold pyListGet
  simp [hneg, hok, List.get?_eq_get hlt]

theorem pyListGet_neg_none (l : List ℚ) (i : Int) (hneg : i < 0)
    (hbad : (l.length : Int) + i < 0) :
    pyListGet l i = none := by
  unfold pyListGet
  simp [hneg, show ¬ (0 : Int) ≤ (l.length : Int) + i by omega]

/-- C4 amended: for a nonempty power table, index 0 selects the first
    index holding the table's maximum value; an index in
    [1, len(table) - 1] returns that entry; an index at or above
    len(table) raises the invalid-tx-power error; a negative index wraps
    Python-style, returning entry len(table) + index without raising
    while len(table) + index is at least 0, and raises only below that. -/
theorem get_tx_power_amended (table : List ℚ) (tx_power : Int)
    (hne : table ≠ []) :
    (get_tx_power table 0 =
        .ok ((table.indexOf (pyMax table) : Nat), pyMax table) ∧
      pyMax table ∈ table ∧ ∀ x ∈ table, x ≤ pyMax table) ∧
    (1 ≤ tx_power → tx_power < (table.length : Int) →
      ∃ v, table.get? tx_power.toNat = some v ∧
        get_tx_power table tx_power = .ok (tx_power, v)) ∧
    ((table.length : Int) ≤ tx_power →
      get_tx_power table tx_power = .error .invalidTxPower) ∧
    (tx_power < 0 → 0 ≤ (table.length : Int) + tx_power →
      ∃ v, table.get? ((table.length : Int) + tx_power).toNat = some v ∧
        get_tx_power table tx_power = .ok (tx_power, v)) ∧
    ((table.length : Int) + tx_power < 0 →
      get_tx_power table tx_power = .error .invalidTxPower) := by
  have hemp : table.isEmpty = false := by
    cases table with
    | nil => exact absurd rfl hne
    | cons a l => rfl
  have hlen : 1 ≤ table.length := by
    cases table with
    | nil => exact absurd rfl hne
    | cons a l => simp
  refine ⟨⟨?_, ?_, ?_⟩, ?_, ?_, ?_, ?_⟩
  · simp [get_tx_power, hemp]
  · cases table with
    | nil => exact absurd rfl hne
    | cons a l =>
      rcases foldl_max_mem l a with h | h
      · exact List.mem_cons.mpr (Or.inl (by simpa [pyMax] using h))
      · exact List.mem_cons.mpr (Or.inr (by simpa [pyMax] using h))
  · intro x hx
    cases table with
    | nil => cases hx
    | cons a l =>
      rcases List.mem_cons.mp hx with h | h
      · subst h; exact foldl_max_init_le l x
      · exact le_foldl_max l a x h
  · intro h1 h2
    have hlt : tx_power.toNat < table.length := by omega
    refine ⟨table.get ⟨tx_power.toNat, hlt⟩, List.get?_eq_get hlt, ?_⟩
    rw [get_tx_power_nonzero table tx_power hemp (by omega),
      pyListGet_pos table tx_power (by omega) hlt]
  · intro hge
    rw [get_tx_power_nonzero table tx_power hemp (by omega),
      pyListGet_pos_none table tx_power (by omega) (by omega)]
  · intro hneg hok
    have hlt : ((table.length : Int) + tx_power).toNat < table.length := by
      omega
    refine ⟨table.get ⟨((table.length : Int) + tx_power).toNat, hlt⟩,
      List.get?_eq_get hlt, ?_⟩
    rw [get_tx_power_nonzero table tx_power hemp (by omega),
      pyListGet_neg table tx_power hneg hok hlt]
  · intro hlow
    rw [get_tx_power_nonzero table tx_power hemp (by omega),
      pyListGet_neg_none table tx_power (by omega) hlow]

/-- Witness for the amended get_tx_power theorem, at the table [0, 32]
    and requested index -1. -/
theorem get_tx_power_amended_witness :
    ([0, 32] : List ℚ) ≠ [] ∧
    ((get_tx_power [0, 32] 0 =
        .ok ((([0, 32] : List ℚ).indexOf (pyMax [0, 32]) : Nat),
          pyMax [0, 32]) ∧
      pyMax [0, 32] ∈ ([0, 32] : List ℚ) ∧
      ∀ x ∈ ([0, 32] : List ℚ), x ≤ pyMax [0, 32]) ∧
    (1 ≤ (-1 : Int) → (-1 : Int) < (([0, 32] : List ℚ).length : Int) →
      ∃ v, ([0, 32] : List ℚ).get? (-1 : Int).toNat = some v ∧
        get_tx_power [0, 32] (-1) = .ok (-1, v)) ∧
    (((([0, 32] : List ℚ).length : Int)) ≤ (-1 : Int) →
      get_tx_power [0, 32] (-1) = .error .invalidTxPower) ∧
    ((-1 : Int) < 0 → 0 ≤ (([0, 32] : List ℚ).length : Int) + (-1 : Int) →
      ∃ v, ([0, 32] : List ℚ).get?
          ((([0, 32] : List ℚ).length : Int) + (-1 : Int)).toNat = some v ∧
        get_tx_power [0, 32] (-1) = .ok (-1, v)) ∧
    ((([0, 32] : List ℚ).length : Int) + (-1 : Int) < 0 →
      get_tx_power [0, 32] (-1) = .error .invalidTxPower)) :=
  ⟨List.cons_ne_nil _ _, get_tx_power_amended [0, 32] (-1)
    (List.cons_ne_nil _ _)⟩

/-- C5 counterexample: with two identical-looking mode-table entries
    that both match the requested modulation (code 2, Tari 0), the scan
    returns the second entry, not the first matching one: each match
    overwrites reader_mode and there is no break. -/
theorem reader_mode_counterexample :
    findReaderMode [⟨2, 25000, 0⟩, ⟨2, 25000, 1⟩] 2 0 =
      some ⟨2, 25000, 1⟩ ∧
    modeMatch 2 0 ⟨2, 25000, 0⟩ = true ∧
    (⟨2, 25000, 1⟩ : ModeEntry) ≠ ⟨2, 25000, 0⟩ := by
  decide

/-- The scan loop keeps the last match: folding the overwrite-on-match
    update equals searching the reversed list. -/
theorem foldl_last_match {α : Type} (p : α → Bool) (l : List α)
    (acc : Option α) :
    l.foldl (fun rm v => if p v then some v else rm) acc =
      (l.reverse.find? p).or acc := by
  induction l generalizing acc with
  | nil => rfl
  | cons x xs ih =>
    simp only [List.foldl_cons, List.reverse_cons, List.find?_append, ih]
    cases hfind : xs.reverse.find? p with
    | some v => rfl
    | none => cases hp : p x <;> simp [List.find?, hp, Option.or]

/-- C5 amended: the reader-mode selection returns the last table entry
    matching the requested modulation code (and Tari, when nonzero), and
    falls back to the table's first entry when no entry matches. -/
theorem reader_mode_last_match (table : List ModeEntry)
    (modCode tari : Nat) :
    findReaderMode table modCode tari =
      (table.reverse.find? (modeMatch modCode tari)).or table.head? := by
  unfold findReaderMode scanModeTable
  rw [foldl_last_match]
  cases h : (table.reverse.find? (modeMatch modCode tari)) with
  | some e => rfl
  | none => simp [Option.or]

/-- C6 counterexample: the single requested antenna 5 exceeds the
    supported maximum 2, the filter leaves the antenna set empty, and
    parseCapabilities succeeds anyway — it returns ok with an empty
    antenna list instead of failing with a capability-mismatch error. -/
theorem antenna_empty_counterexample :
    parseCapabilities ⟨[5], 1, 2, 0⟩ ⟨2, [(1, 3225)], [⟨2, 25000, 7⟩]⟩ =
      .ok ⟨[], [0, 3225 / 100], 1, ⟨2, 25000, 7⟩⟩ := rfl

/-- C6 amended: every requested antenna exceeding
    MaxNumberOfAntennaSupported is removed, and parseCapabilities then
    proceeds — it succeeds even when the filtered antenna set is empty,
    raising no capability-mismatch error (its only failures come from
    the power table, the tx-power check or a missing mode table). -/
theorem parseCapabilities_antennas_amended (cfg : ProtoConfig)
    (capdict : Capabilities) (ptbl : List ℚ) (pr : Int × ℚ) (rm : ModeEntry)
    (hne : cfg.antennas ≠ [])
    (hpow : parsePowerTable capdict.powerEntries = some ptbl)
    (htx : get_tx_power ptbl cfg.tx_power = .ok pr)
    (hmode : findReaderMode capdict.UHFRFModeTable cfg.modCode cfg.tari =
      some rm) :
    parseCapabilities cfg capdict =
      .ok ⟨cfg.antennas.filter
            (fun ant => decide (ant ≤ capdict.MaxNumberOfAntennaSupported)),
          ptbl, pr.1, rm⟩ := by
  obtain ⟨ants, txp, mc, tari⟩ := cfg
  simp only at hne hpow htx hmode ⊢
  cases ants with
  | nil => exact absurd rfl hne
  | cons a0 arest =>
    unfold parseCapabilities
    simp only [hpow, htx, hmode]
    by_cases hmx :
        arest.foldl max a0 > capdict.MaxNumberOfAntennaSupported
    · simp [hmx]
    · have hall : ∀ x ∈ a0 :: arest,
          decide (x ≤ capdict.MaxNumberOfAntennaSupported) = true := by
        intro x hx
        rcases List.mem_cons.mp hx with h | h
        · subst h
          simpa using le_trans (foldl_max_init_le arest x) (by omega)
        · simpa using le_trans (le_foldl_max arest a0 x h) (by omega)
      simp [hmx, List.filter_eq_self.mpr hall]

/-- Witness for the amended parseCapabilities theorem: requested antenna
    5 against a reader supporting 2 antennas; the filtered set is empty
    and parsing still succeeds. -/
theorem parseCapabilities_antennas_amended_witness :
    ([5] : List Nat) ≠ [] ∧
    parsePowerTable [(1, 3225)] = some [0, 3225 / 100] ∧
    get_tx_power [0, 3225 / 100] 1 = .ok (1, 3225 / 100) ∧
    findReaderMode [⟨2, 25000, 7⟩] 2 0 = some ⟨2, 25000, 7⟩ ∧
    parseCapabilities ⟨[5], 1, 2, 0⟩ ⟨2, [(1, 3225)], [⟨2, 25000, 7⟩]⟩ =
      .ok ⟨([5] : List Nat).filter (fun ant => decide (ant ≤ 2)),
        [0, 3225 / 100], (1, (3225 : ℚ) / 100).1, ⟨2, 25000, 7⟩⟩ :=
  ⟨List.cons_ne_nil _ _, rfl, rfl, rfl,
    parseCapabilities_antennas_amended ⟨[5], 1, 2, 0⟩
      ⟨2, [(1, 3225)], [⟨2, 25000, 7⟩]⟩ [0, 3225 / 100] (1, 3225 / 100)
      ⟨2, 25000, 7⟩ (List.cons_ne_nil _ _) rfl rfl rfl⟩

/-! The per-connection protocol engine: the Deferred continuation class,
    processDeferreds and the handleMessage state machine of LLRPProtocol,
    embedded as an executable step function.

    Handlers registered on Deferreds in this module are drawn from a
    fixed set of methods; they are embedded as the Handler alphabet
    below, interpreted by runHandler.  Message and state callbacks are
    user-supplied observers (inventory.py only reads tag data in them),
    so firing one is recorded in a log and has no effect on the protocol
    state.  A raiseH handler models a continuation whose function raises
    an arbitrary exception. -/

/-- The connection states of LLRPProtocol (STATE_*). -/
inductive St
  | DISCONNECTED
  | CONNECTING
  | CONNECTED
  | SENT_ADD_ROSPEC
  | SENT_ENABLE_ROSPEC
  | INVENTORYING
  | SENT_DELETE_ROSPEC
  | SENT_DELETE_ACCESSSPEC
  | SENT_GET_CAPABILITIES
  | PAUSING
  | PAUSED
deriving DecidableEq

/-- The handler functions this module installs on Deferreds, plus raiseH
    for an arbitrary raising handler: setStateW is the _setState_wrapper
    bound to a target state, panicH and complainH the logging handlers,
    sendEnableRospecH the send_ENABLE_ROSPEC continuation of
    startInventory, stopAllROSpecsH the stopAllROSpecs continuation of
    stopPolitely, startInventoryH the startInventory callback appended
    after a reset-on-connect stopPolitely. -/
inductive Handler
  | setStateW (s : St)
  | panicH
  | complainH
  | sendEnableRospecH
  | stopAllROSpecsH
  | startInventoryH
  | raiseH
deriving DecidableEq

/-- One element of a Deferred's queue: an optional callback and an
    optional errback (addCallback stores (f, None), addErrback stores
    (None, f)); the queue runs in the order the handlers were added. -/
abbrev HPair := Option Handler × Option Handler

/-- A Deferred: its handler queue in execution order. -/
abbrev Dfrd := List HPair

/-- An inbound message as handleMessage classifies it: its name, its
    isSuccess classification, whether parseCapabilities succeeds on it
    (only read for GET_READER_CAPABILITIES_RESPONSE; false models the
    LLRPError re-raised out of the capabilities branch), and whether its
    msgdict carries an LLRPStatus parameter.  The failure branches of
    the PAUSING and SENT_DELETE_ROSPEC states read
    msgdict[msgName][LLRPStatus] before their drain, so a
    failure-classified message without it raises KeyError there and
    aborts handleMessage; in the branches that return right after the
    same extraction (SENT_GET_CAPABILITIES, SENT_ADD_ROSPEC,
    SENT_ENABLE_ROSPEC) the missing key changes only the exception
    raised, not the resulting protocol state, and is not modelled
    separately. -/
structure InMsg where
  name : MsgName
  isSuccess : Bool
  capsOk : Bool
  hasStatus : Bool
deriving DecidableEq

/-- The protocol-engine state: the connection state, the _deferreds
    registry (response name to Deferred queue), the _message_callbacks
    registry (callbacks are opaque identifiers), the log of fired
    callbacks, the log of sent messages, the disconnecting flag, whether
    transport.close() was called, and the reset_on_connect and
    start_inventory settings. -/
structure PState where
  state : St
  defs : MsgName → List Dfrd
  msgCbs : MsgName → List Nat
  fired : List Nat
  sent : List MsgName
  disconnecting : Bool
  transportClosed : Bool
  reset_on_connect : Bool
  start_inventory : Bool

/-- Append a Deferred to the registry queue of a response name
    (self._deferreds[name].append(d)). -/
def registerD (n : MsgName) (d : Dfrd) (st : PState) : PState :=
  { st with defs := fun k => if k = n then st.defs k ++ [d] else st.defs k }

/-- sendLLRPMessage: log the outbound message. -/
def sendMsg (n : MsgName) (st : PState) : PState :=
  { st with sent := st.sent ++ [n] }

/-- setState (state callbacks are observers and not modelled). -/
def setSt (s : St) (st : PState) : PState := { st with state := s }

/-- The Deferred built by startInventory and resume for
    ENABLE_ROSPEC_RESPONSE: callback _setState_wrapper(INVENTORYING),
    errback panic. -/
def startedDfrd : Dfrd :=
  [(some (.setStateW .INVENTORYING), none), (none, some .panicH)]

/-- send_ENABLE_ROSPEC: send the message, advance to
    SENT_ENABLE_ROSPEC, register the completion Deferred (both call
    sites pass the startedDfrd shape). -/
def send_ENABLE_ROSPEC (st : PState) : PState :=
  registerD .ENABLE_ROSPEC_RESPONSE startedDfrd
    (setSt .SENT_ENABLE_ROSPEC (sendMsg .ENABLE_ROSPEC st))

/-- stopAllROSpecs: send DELETE_ROSPEC, advance to SENT_DELETE_ROSPEC,
    register a Deferred carrying only a panic errback. -/
def stopAllROSpecs (st : PState) : PState :=
  registerD .DELETE_ROSPEC_RESPONSE [(none, some .panicH)]
    (setSt .SENT_DELETE_ROSPEC (sendMsg .DELETE_ROSPEC st))

/-- startInventory: a no-op while already INVENTORYING; otherwise send
    ADD_ROSPEC, advance to SENT_ADD_ROSPEC and register the chain whose
    callback is send_ENABLE_ROSPEC and whose errback is panic. -/
def startInventory (st : PState) : PState :=
  if st.state = .INVENTORYING then st
  else
    registerD .ADD_ROSPEC_RESPONSE
      [(some .sendEnableRospecH, none), (none, some .panicH)]
      (setSt .SENT_ADD_ROSPEC (sendMsg .ADD_ROSPEC st))

/-- Interpretation of one handler: the new protocol state and whether
    the handler raised.  panic always raises: it calls
    failure.getErrorMessage() (and getTraceback()) on its first argument,
    but processDeferreds errbacks with the plain int state and _execute
    passes a plain Exception after an earlier raise, so the attribute
    access raises AttributeError before panic returns.  complain only
    logs its extra args and never touches the failure, so it returns
    normally and absorbs the error. -/
def runHandler (h : Handler) (st : PState) : PState × Bool :=
  match h with
  | .setStateW s => (setSt s st, false)
  | .panicH => (st, true)
  | .complainH => (st, false)
  | .sendEnableRospecH => (send_ENABLE_ROSPEC st, false)
  | .stopAllROSpecsH => (stopAllROSpecs st, false)
  | .startInventoryH => (startInventory st, false)
  | .raiseH => (st, true)

/-- Deferred._execute: walk the queue in order; at each pair run the
    callback (hidx 0) or errback (hidx 1) slot if present; a handler
    that returns switches to callback mode, a handler that raises prints
    the traceback and switches to errback mode with the exception as
    result.  Returns the final state and whether the final result is an
    unhandled exception, which Deferred._execute then re-raises. -/
def deferredExecute (d : Dfrd) (hidx : Nat) (exc : Bool) (st : PState) :
    PState × Bool :=
  match d with
  | [] => (st, exc)
  | p :: rest =>
    match (if hidx = 0 then p.1 else p.2) with
    | none => deferredExecute rest hidx exc st
    | some h =>
      let r := runHandler h st
      if r.2 then deferredExecute rest 1 true r.1
      else deferredExecute rest 0 false r.1

/-- The loop of processDeferreds over the snapshot of the queue: each
    Deferred's callback (on success) or errback (on failure) is run; if
    one ends in an unhandled exception, that exception propagates and
    the remaining Deferreds are not run.  Also returns the queue as the
    live list would remain on abort: run Deferreds emptied, the rest
    untouched. -/
def drainLoop (ds : List Dfrd) (suc : Bool) (st : PState) :
    PState × Bool × List Dfrd :=
  match ds with
  | [] => (st, false, [])
  | d :: rest =>
    let r := deferredExecute d (if suc then 0 else 1) false st
    if r.2 then (r.1, true, [] :: rest)
    else
      let r2 := drainLoop rest suc r.1
      (r2.1, r2.2.1, [] :: r2.2.2)

/-- LLRPProtocol.processDeferreds: run every Deferred registered for the
    message name (callback on success, errback on failure), then delete
    the registry key.  An empty queue returns immediately.  If a
    Deferred re-raises, the del is never reached: the key keeps the
    partially-drained queue and the exception propagates (second
    component true).  In this module no handler registers under the key
    being drained, so overwriting the key is equivalent to the del. -/
def processDeferreds (n : MsgName) (suc : Bool) (st : PState) :
    PState × Bool :=
  let ds := st.defs n
  if ds.isEmpty then (st, false)
  else
    let r := drainLoop ds suc st
    if r.2.1 then
      ({ r.1 with defs := fun k => if k = n then r.2.2 else r.1.defs k },
        true)
    else
      ({ r.1 with defs := fun k => if k = n then [] else r.1.defs k },
        false)

/-- The per-state machine of LLRPProtocol.handleMessage (everything
    after the keepalive and report short-circuits).  Branches mirror the
    source: connect states and the SENT_GET_CAPABILITIES,
    SENT_ADD_ROSPEC and SENT_ENABLE_ROSPEC branches return early on an
    unexpected name or a failure (before their drain), while PAUSING,
    SENT_DELETE_ACCESSSPEC and SENT_DELETE_ROSPEC only log and fall
    through to the drain.  In PAUSING and SENT_DELETE_ROSPEC the failure
    path first reads msgdict[msgName][LLRPStatus][StatusCode]: when the
    message carries no LLRPStatus that lookup raises KeyError and the
    branch aborts before its drain (modelled as returning st unchanged).
    A drain that re-raises aborts the rest of the branch. -/
def handleMachine (m : InMsg) (st : PState) : PState :=
  match st.state with
    | .DISCONNECTED | .CONNECTING | .CONNECTED =>
      if m.name ≠ .READER_EVENT_NOTIFICATION then st
      else if ¬ m.isSuccess then st
      else
        let r := processDeferreds m.name m.isSuccess st
        if r.2 then r.1
        else
          registerD .GET_READER_CAPABILITIES_RESPONSE
            [(some (.setStateW .CONNECTED), none), (none, some .panicH)]
            (setSt .SENT_GET_CAPABILITIES
              (sendMsg .GET_READER_CAPABILITIES r.1))
    | .SENT_GET_CAPABILITIES =>
      if m.name ≠ .GET_READER_CAPABILITIES_RESPONSE then st
      else if ¬ m.isSuccess then st
      else if ¬ m.capsOk then st
      else
        let r := processDeferreds m.name m.isSuccess st
        if r.2 then r.1
        else if r.1.reset_on_connect then
          registerD .DELETE_ACCESSSPEC_RESPONSE
            ([(some .stopAllROSpecsH, none), (none, some .panicH)] ++
              (if r.1.start_inventory then [(some .startInventoryH, none)]
               else []))
            (setSt .SENT_DELETE_ACCESSSPEC (sendMsg .DELETE_ACCESSSPEC r.1))
        else if r.1.start_inventory then startInventory r.1
        else r.1
    | .SENT_ADD_ROSPEC =>
      if m.name ≠ .ADD_ROSPEC_RESPONSE then st
      else if ¬ m.isSuccess then st
      else (processDeferreds m.name m.isSuccess st).1
    | .PAUSING =>
      if ¬ m.isSuccess ∧ ¬ m.hasStatus then st
      else (processDeferreds m.name m.isSuccess st).1
    | .SENT_ENABLE_ROSPEC =>
      if ¬ m.isSuccess then st
      else (processDeferreds m.name m.isSuccess st).1
    | .INVENTORYING =>
      if m.name = .RO_ACCESS_REPORT ∨ m.name = .READER_EVENT_NOTIFICATION ∨
          m.name = .ADD_ACCESSSPEC_RESPONSE ∨
          m.name = .ENABLE_ACCESSSPEC_RESPONSE ∨
          m.name = .DISABLE_ACCESSSPEC_RESPONSE ∨
          m.name = .DELETE_ACCESSSPEC_RESPONSE then
        (processDeferreds m.name m.isSuccess st).1
      else st
    | .SENT_DELETE_ACCESSSPEC =>
      (processDeferreds m.name m.isSuccess st).1
    | .SENT_DELETE_ROSPEC =>
      if ¬ m.isSuccess ∧ ¬ m.hasStatus then st
      else
        let stA :=
          if m.isSuccess then
            setSt (if st.disconnecting then .DISCONNECTED else .CONNECTED) st
          else st
        let r := processDeferreds m.name m.isSuccess stA
        if r.2 then r.1
        else if r.1.disconnecting then { r.1 with transportClosed := true }
        else r.1
    | .PAUSED => st

/-- LLRPProtocol.handleMessage: fire the per-message callbacks first,
    answer KEEPALIVE from any state, drop RO_ACCESS_REPORT outside
    INVENTORYING, then run the per-state machine (handleMachine). -/
def handleMessage (m : InMsg) (st0 : PState) : PState :=
  let st := { st0 with fired := st0.fired ++ st0.msgCbs m.name }
  if m.name = .KEEPALIVE then sendMsg .KEEPALIVE_ACK st
  else if m.name = .RO_ACCESS_REPORT ∧ st.state ≠ .INVENTORYING then st
  else handleMachine m st

/-- LLRPProtocol.pause: ignored when not inventorying unless forced;
    otherwise send DISABLE_ROSPEC, enter PAUSING and register the
    Deferred whose callback is _setState_wrapper(PAUSED) and whose
    errback is complain. -/
def pause (force : Bool) (st : PState) : PState :=
  if st.state ≠ .INVENTORYING ∧ ¬ force then st
  else
    registerD .DISABLE_ROSPEC_RESPONSE
      [(some (.setStateW .PAUSED), none), (none, some .complainH)]
      (setSt .PAUSING (sendMsg .DISABLE_ROSPEC st))

/-- LLRPProtocol.resume: in CONNECTED or DISCONNECTED it starts a fresh
    inventory; outside PAUSED it is ignored; in PAUSED it re-sends
    ENABLE_ROSPEC with a Deferred advancing to INVENTORYING. -/
def resume (st : PState) : PState :=
  if st.state = .CONNECTED ∨ st.state = .DISCONNECTED then startInventory st
  else if st.state ≠ .PAUSED then st
  else send_ENABLE_ROSPEC st

/-- LLRPProtocol.stopPolitely: optionally set disconnecting, send
    DELETE_ACCESSSPEC(0), enter SENT_DELETE_ACCESSSPEC and register the
    Deferred whose callback is stopAllROSpecs and whose errback is
    panic. -/
def stopPolitely (disconnect : Bool) (st : PState) : PState :=
  let st1 := if disconnect then { st with disconnecting := true } else st
  registerD .DELETE_ACCESSSPEC_RESPONSE
    [(some .stopAllROSpecsH, none), (none, some .panicH)]
    (setSt .SENT_DELETE_ACCESSSPEC (sendMsg .DELETE_ACCESSSPEC st1))

/-- The operations that can act on a connection: an inbound message
    through handleMessage, and the internal startInventory, pause,
    resume and stopPolitely calls (including their timer-driven
    invocations) plus addMessageCallback registration. -/
inductive Event
  | msg (m : InMsg)
  | startInv
  | pauseE (force : Bool)
  | resumeE
  | stopE (disconnect : Bool)
  | addCb (n : MsgName) (cb : Nat)

/-- One step of the connection: dispatch an event. -/
def step (e : Event) (st : PState) : PState :=
  match e with
  | .msg m => handleMessage m st
  | .startInv => startInventory st
  | .pauseE f => pause f st
  | .resumeE => resume st
  | .stopE b => stopPolitely b st
  | .addCb n cb =>
    { st with msgCbs := fun k => if k = n then st.msgCbs k ++ [cb]
        else st.msgCbs k }

/-- A freshly constructed LLRPProtocol: DISCONNECTED, no Deferreds, the
    message callbacks copied from the factory, given config flags. -/
def initState (roc si : Bool) (cbs : MsgName → List Nat) : PState :=
  ⟨.DISCONNECTED, fun _ => [], cbs, [], [], false, false, roc, si⟩

/-- The states a connection can reach from construction under any
    sequence of inbound messages and internal calls. -/
inductive Reachable (roc si : Bool) (cbs : MsgName → List Nat) :
    PState → Prop
  | init : Reachable roc si cbs (initState roc si cbs)
  | next (e : Event) {st : PState} :
      Reachable roc si cbs st → Reachable roc si cbs (step e st)

/-! Invariant for claim C3: the only handler that can move the machine
    into INVENTORYING is the _setState_wrapper(INVENTORYING) callback,
    and such a callback is registered only under
    ENABLE_ROSPEC_RESPONSE (inside the startedDfrd shape). -/

/-- Neither slot of the pair is the INVENTORYING state setter. -/
def noInvPair (p : HPair) : Prop :=
  p.1 ≠ some (.setStateW .INVENTORYING) ∧
  p.2 ≠ some (.setStateW .INVENTORYING)

/-- No pair of the Deferred carries the INVENTORYING state setter. -/
def noInvD (d : Dfrd) : Prop := ∀ p ∈ d, noInvPair p

/-- A Deferred registered under ENABLE_ROSPEC_RESPONSE is the
    startedDfrd shape, or a drained empty queue. -/
def EDfrd (d : Dfrd) : Prop := d = startedDfrd ∨ d = []

/-- Registry invariant: the ENABLE_ROSPEC_RESPONSE queue holds only
    startedDfrd-shaped (or drained) Deferreds, every other queue holds
    only Deferreds free of the INVENTORYING setter. -/
def DefsInvF (f : MsgName → List Dfrd) : Prop :=
  (∀ d ∈ f .ENABLE_ROSPEC_RESPONSE, EDfrd d) ∧
  (∀ n, n ≠ MsgName.ENABLE_ROSPEC_RESPONSE → ∀ d ∈ f n, noInvD d)

/-- Registry invariant on a protocol state. -/
def DefsInv (st : PState) : Prop := DefsInvF st.defs

instance (p : HPair) : Decidable (noInvPair p) := by
  unfold noInvPair; infer_instance

instance (d : Dfrd) : Decidable (noInvD d) := by
  unfold noInvD; exact List.decidableBAll _ d

theorem DefsInv_registerD {st : PState} {n : MsgName} {d : Dfrd}
    (h : DefsInv st)
    (hE : n = .ENABLE_ROSPEC_RESPONSE → EDfrd d)
    (hN : n ≠ .ENABLE_ROSPEC_RESPONSE → noInvD d) :
    DefsInv (registerD n d st) := by
  obtain ⟨h1, h2⟩ := h
  constructor
  · intro d' hd'
    by_cases hn : MsgName.ENABLE_ROSPEC_RESPONSE = n
    · simp only [registerD, hn, if_pos rfl] at hd'
      rcases List.mem_append.mp hd' with hm | hm
      · exact h1 d' (hn ▸ hm)
      · rcases List.mem_singleton.mp hm with rfl
        exact hE hn.symm
    · simp only [registerD, if_neg hn] at hd'
      exact h1 d' hd'
  · intro k hk d' hd'
    by_cases hn : k = n
    · subst hn
      simp only [registerD, if_pos rfl] at hd'
      rcases List.mem_append.mp hd' with hm | hm
      · exact h2 k hk d' hm
      · rcases List.mem_singleton.mp hm with rfl
        exact hN hk
    · simp only [registerD, if_neg hn] at hd'
      exact h2 k hk d' hd'

theorem DefsInv_runHandler (h : Handler) (st : PState) (hinv : DefsInv st) :
    DefsInv (runHandler h st).1 := by
  cases h with
  | setStateW s => exact hinv
  | panicH => exact hinv
  | complainH => exact hinv
  | sendEnableRospecH =>
    exact DefsInv_registerD hinv (fun _ => Or.inl rfl)
      (fun hne => absurd rfl hne)
  | stopAllROSpecsH =>
    refine DefsInv_registerD hinv (fun he => ?_) (fun _ => by decide)
    exact absurd he (by decide)
  | startInventoryH =>
    show DefsInv (startInventory st)
    unfold startInventory
    split
    · exact hinv
    · refine DefsInv_registerD hinv (fun he => ?_) (fun _ => by decide)
      exact absurd he (by decide)
  | raiseH => exact hinv

theorem runHandler_state (h : Handler) (st : PState)
    (hne : h ≠ .setStateW .INVENTORYING)
    (hstate : (runHandler h st).1.state = .INVENTORYING) :
    st.state = .INVENTORYING := by
  cases h with
  | setStateW s =>
    exact absurd (congrArg Handler.setStateW hstate) hne
  | panicH => exact hstate
  | complainH => exact hstate
  | sendEnableRospecH => cases hstate
  | stopAllROSpecsH => cases hstate
  | startInventoryH =>
    revert hstate
    show (startInventory st).state = _ → _
    unfold startInventory
    split
    · exact fun hs => hs
    · intro hs; cases hs
  | raiseH => exact hstate

theorem deferredExecute_inv :
    ∀ (d : Dfrd) (hidx : Nat) (exc : Bool) (st : PState), DefsInv st →
      DefsInv (deferredExecute d hidx exc st).1
  | [], _, _, _, hinv => hinv
  | p :: rest, hidx, exc, st, hinv => by
    unfold deferredExecute
    cases hsel : (if hidx = 0 then p.1 else p.2) with
    | none => exact deferredExecute_inv rest hidx exc st hinv
    | some h =>
      simp only
      have hrun := DefsInv_runHandler h st hinv
      split
      · exact deferredExecute_inv rest 1 true _ hrun
      · exact deferredExecute_inv rest 0 false _ hrun

theorem deferredExecute_state :
    ∀ (d : Dfrd), noInvD d → ∀ (hidx : Nat) (exc : Bool) (st : PState),
      (deferredExecute d hidx exc st).1.state = .INVENTORYING →
      st.state = .INVENTORYING
  | [], _, _, _, _, hstate => hstate
  | p :: rest, hd, hidx, exc, st, hstate => by
    have hp : noInvPair p := hd p (List.mem_cons_self p rest)
    have hrest : noInvD rest := fun q hq => hd q (List.mem_cons_of_mem p hq)
    revert hstate
    unfold deferredExecute
    cases hsel : (if hidx = 0 then p.1 else p.2) with
    | none => exact deferredExecute_state rest hrest hidx exc st
    | some h =>
      have hne : h ≠ .setStateW .INVENTORYING := by
        by_cases h0 : hidx = 0
        · rw [if_pos h0] at hsel
          intro hh; exact hp.1 (hsel.trans (congrArg some hh))
        · rw [if_neg h0] at hsel
          intro hh; exact hp.2 (hsel.trans (congrArg some hh))
      simp only
      split
      · intro hstate
        exact runHandler_state h st hne
          (deferredExecute_state rest hrest 1 true _ hstate)
      · intro hstate
        exact runHandler_state h st hne
          (deferredExecute_state rest hrest 0 false _ hstate)

/-- The errback pass over a startedDfrd-shaped (or drained) Deferred
    leaves the state untouched: the INVENTORYING setter sits in the
    callback slot, so it can never run in errback mode; only the panic
    errback runs (and re-raises, but changes nothing). -/
theorem deferredExecute_EDfrd_errback (d : Dfrd) (hd : EDfrd d)
    (st : PState) : (deferredExecute d 1 false st).1 = st := by
  rcases hd with rfl | rfl
  · rfl
  · rfl

theorem drainLoop_inv :
    ∀ (ds : List Dfrd) (suc : Bool) (st : PState), DefsInv st →
      DefsInv (drainLoop ds suc st).1
  | [], _, _, hinv => hinv
  | d :: rest, suc, st, hinv => by
    unfold drainLoop
    simp only
    generalize (if suc = true then (0 : Nat) else 1) = hidx
    have h1 := deferredExecute_inv d hidx false st hinv
    split
    · exact h1
    · exact drainLoop_inv rest suc _ h1

theorem drainLoop_state :
    ∀ (ds : List Dfrd), (∀ d ∈ ds, noInvD d) → ∀ (suc : Bool) (st : PState),
      (drainLoop ds suc st).1.state = .INVENTORYING →
      st.state = .INVENTORYING
  | [], _, _, _, hstate => hstate
  | d :: rest, hds, suc, st, hstate => by
    have hd : noInvD d := hds d (List.mem_cons_self d rest)
    have hrest : ∀ q ∈ rest, noInvD q :=
      fun q hq => hds q (List.mem_cons_of_mem d hq)
    revert hstate
    unfold drainLoop
    simp only
    generalize (if suc = true then (0 : Nat) else 1) = hidx
    split
    · exact deferredExecute_state d hd hidx false st
    · intro hstate
      exact deferredExecute_state d hd hidx false st
        (drainLoop_state rest hrest suc _ hstate)

theorem drainLoop_post_sub :
    ∀ (ds : List Dfrd) (suc : Bool) (st : PState),
      ∀ x ∈ (drainLoop ds suc st).2.2, x = [] ∨ x ∈ ds
  | [], _, _ => by intro x hx; cases hx
  | d :: rest, suc, st => by
    intro x hx
    revert hx
    unfold drainLoop
    simp only
    generalize (if suc = true then (0 : Nat) else 1) = hidx
    split
    · intro hx
      rcases List.mem_cons.mp hx with h | h
      · exact Or.inl h
      · exact Or.inr (List.mem_cons_of_mem d h)
    · intro hx
      rcases List.mem_cons.mp hx with h | h
      · exact Or.inl h
      · rcases drainLoop_post_sub rest suc _ x h with h' | h'
        · exact Or.inl h'
        · exact Or.inr (List.mem_cons_of_mem d h')

/-- The errback pass over a queue of startedDfrd-shaped Deferreds leaves
    the state untouched (a startedDfrd entry re-raises through panic and
    aborts the loop, a drained entry is skipped; neither changes the
    state). -/
theorem drainLoop_EDfrd_errback :
    ∀ (ds : List Dfrd), (∀ d ∈ ds, EDfrd d) → ∀ (st : PState),
      (drainLoop ds false st).1 = st
  | [], _, _ => rfl
  | d :: rest, hds, st => by
    have hd : EDfrd d := hds d (List.mem_cons_self d rest)
    have hrest : ∀ q ∈ rest, EDfrd q :=
      fun q hq => hds q (List.mem_cons_of_mem d hq)
    have h1 : (deferredExecute d 1 false st).1 = st :=
      deferredExecute_EDfrd_errback d hd st
    unfold drainLoop
    simp only [Bool.false_eq_true, if_false]
    split
    · exact h1
    · exact (drainLoop_EDfrd_errback rest hrest
        (deferredExecute d 1 false st).1).trans h1

/-- Main drain lemma: processDeferreds preserves the registry invariant,
    and it can move the machine into INVENTORYING only when draining the
    ENABLE_ROSPEC_RESPONSE key with a success classification. -/
theorem processDeferreds_inv (n : MsgName) (suc : Bool) (st : PState)
    (hinv : DefsInv st) :
    DefsInv (processDeferreds n suc st).1 ∧
    ((processDeferreds n suc st).1.state = .INVENTORYING →
      st.state = .INVENTORYING ∨
        (n = .ENABLE_ROSPEC_RESPONSE ∧ suc = true)) := by
  unfold processDeferreds
  simp only
  split
  · exact ⟨hinv, fun h => Or.inl h⟩
  · by_cases hn : n = MsgName.ENABLE_ROSPEC_RESPONSE
    · subst hn
      have hE : ∀ d ∈ st.defs .ENABLE_ROSPEC_RESPONSE, EDfrd d := hinv.1
      cases suc with
      | false =>
        have hid : (drainLoop (st.defs .ENABLE_ROSPEC_RESPONSE) false st).1
            = st :=
          drainLoop_EDfrd_errback (st.defs .ENABLE_ROSPEC_RESPONSE) hE st
        have hdrinv :=
          drainLoop_inv (st.defs .ENABLE_ROSPEC_RESPONSE) false st hinv
        constructor
        · split
          · refine ⟨?_, ?_⟩
            · intro d hd
              simp only [if_pos rfl] at hd
              rcases drainLoop_post_sub _ false st d hd with h | h
              · exact Or.inr h
              · exact hE d h
            · intro k hk d hd
              have hkne : ¬ (k = MsgName.ENABLE_ROSPEC_RESPONSE) := hk
              simp only [if_neg hkne] at hd
              exact hdrinv.2 k hk d hd
          · refine ⟨?_, ?_⟩
            · intro d hd
              simp only [if_pos rfl] at hd
              cases hd
            · intro k hk d hd
              have hkne : ¬ (k = MsgName.ENABLE_ROSPEC_RESPONSE) := hk
              simp only [if_neg hkne] at hd
              exact hdrinv.2 k hk d hd
        · intro hstate
          revert hstate
          split <;>
            (intro hstate; rw [hid] at hstate; exact Or.inl hstate)
      | true =>
        have hdrinv :=
          drainLoop_inv (st.defs .ENABLE_ROSPEC_RESPONSE) true st hinv
        refine ⟨?_, fun _ => Or.inr ⟨rfl, rfl⟩⟩
        split
        · refine ⟨?_, ?_⟩
          · intro d hd
            simp only [if_pos rfl] at hd
            rcases drainLoop_post_sub _ true st d hd with h | h
            · exact Or.inr h
            · exact hE d h
          · intro k hk d hd
            have hkne : ¬ (k = MsgName.ENABLE_ROSPEC_RESPONSE) := hk
            simp only [if_neg hkne] at hd
            exact hdrinv.2 k hk d hd
        · refine ⟨?_, ?_⟩
          · intro d hd
            simp only [if_pos rfl] at hd
            cases hd
          · intro k hk d hd
            have hkne : ¬ (k = MsgName.ENABLE_ROSPEC_RESPONSE) := hk
            simp only [if_neg hkne] at hd
            exact hdrinv.2 k hk d hd
    · have hdrinv := drainLoop_inv (st.defs n) suc st hinv
      have hN : ∀ d ∈ st.defs n, noInvD d := hinv.2 n hn
      have hstep := drainLoop_state (st.defs n) hN suc st
      have hEn : ¬ (MsgName.ENABLE_ROSPEC_RESPONSE = n) :=
        fun he => hn he.symm
      constructor
      · split
        · refine ⟨?_, ?_⟩
          · intro d hd
            simp only [if_neg hEn] at hd
            exact hdrinv.1 d hd
          · intro k hk d hd
            by_cases hkn : k = n
            · subst hkn
              simp only [if_pos rfl] at hd
              rcases drainLoop_post_sub _ suc st d hd with h | h
              · intro p hp; rw [h] at hp; cases hp
              · exact hN d h
            · simp only [if_neg hkn] at hd
              exact hdrinv.2 k hk d hd
        · refine ⟨?_, ?_⟩
          · intro d hd
            simp only [if_neg hEn] at hd
            exact hdrinv.1 d hd
          · intro k hk d hd
            by_cases hkn : k = n
            · subst hkn
              simp only [if_pos rfl] at hd
              cases hd
            · simp only [if_neg hkn] at hd
              exact hdrinv.2 k hk d hd
      · intro hstate
        refine Or.inl (hstep ?_)
        revert hstate
        split <;> exact fun h => h

theorem send_ENABLE_ROSPEC_inv (st : PState) (hinv : DefsInv st) :
    DefsInv (send_ENABLE_ROSPEC st) :=
  DefsInv_registerD hinv (fun _ => Or.inl rfl) (fun hne => absurd rfl hne)

theorem stopAllROSpecs_inv (st : PState) (hinv : DefsInv st) :
    DefsInv (stopAllROSpecs st) :=
  DefsInv_registerD hinv (fun he => absurd he (by decide))
    (fun _ => by decide)

theorem startInventory_inv (st : PState) (hinv : DefsInv st) :
    DefsInv (startInventory st) := by
  unfold startInventory
  split
  · exact hinv
  · exact DefsInv_registerD hinv (fun he => absurd he (by decide))
      (fun _ => by decide)

theorem startInventory_state (st : PState)
    (h : (startInventory st).state = .INVENTORYING) :
    st.state = .INVENTORYING := by
  revert h
  unfold startInventory
  split
  · exact fun h => h
  · exact fun h => nomatch h

theorem pause_inv (force : Bool) (st : PState) (hinv : DefsInv st) :
    DefsInv (pause force st) := by
  unfold pause
  split
  · exact hinv
  · exact DefsInv_registerD hinv (fun he => absurd he (by decide))
      (fun _ => by decide)

theorem pause_state (force : Bool) (st : PState)
    (h : (pause force st).state = .INVENTORYING) :
    st.state = .INVENTORYING := by
  revert h
  unfold pause
  split
  · exact fun h => h
  · exact fun h => nomatch h

theorem resume_inv (st : PState) (hinv : DefsInv st) :
    DefsInv (resume st) := by
  unfold resume
  split
  · exact startInventory_inv st hinv
  · split
    · exact hinv
    · exact send_ENABLE_ROSPEC_inv st hinv

theorem resume_state (st : PState)
    (h : (resume st).state = .INVENTORYING) :
    st.state = .INVENTORYING := by
  revert h
  unfold resume
  split
  · exact startInventory_state st
  · split
    · exact fun h => h
    · exact fun h => nomatch h

theorem stopPolitely_inv (disconnect : Bool) (st : PState)
    (hinv : DefsInv st) : DefsInv (stopPolitely disconnect st) := by
  unfold stopPolitely
  refine DefsInv_registerD ?_ (fun he => absurd he (by decide))
    (fun _ => by decide)
  split
  · exact hinv
  · exact hinv

theorem stopPolitely_state (disconnect : Bool) (st : PState)
    (h : (stopPolitely disconnect st).state = .INVENTORYING) :
    st.state = .INVENTORYING := nomatch h

/-- The caps-branch Deferred (stopAllROSpecs callback, panic errback,
    optionally a startInventory callback appended) never carries the
    INVENTORYING setter. -/
theorem noInvD_capsStop (b : Bool) :
    noInvD ([(some .stopAllROSpecsH, none), (none, some .panicH)] ++
      (if b then [(some .startInventoryH, none)] else [])) := by
  cases b <;> decide

/-- State-machine invariant at branch level: handleMachine preserves
    the registry invariant, and can leave the machine in INVENTORYING
    only if it was already there or the processed message is an
    ENABLE_ROSPEC_RESPONSE classified as success. -/
theorem handleMachine_inv (m : InMsg) (st : PState) (hinv : DefsInv st) :
    DefsInv (handleMachine m st) ∧
    ((handleMachine m st).state = .INVENTORYING →
      st.state = .INVENTORYING ∨
        (m.name = .ENABLE_ROSPEC_RESPONSE ∧ m.isSuccess = true)) := by
  unfold handleMachine
  cases hst : st.state with
  | DISCONNECTED | CONNECTING | CONNECTED =>
    simp only
    split
    · exact ⟨hinv, fun h => Or.inl (hst ▸ h)⟩
    · split
      · exact ⟨hinv, fun h => Or.inl (hst ▸ h)⟩
      · obtain ⟨hpd1, hpd2⟩ :=
          processDeferreds_inv m.name m.isSuccess st hinv
        split
        · refine ⟨hpd1, fun h => ?_⟩
          rcases hpd2 h with h' | h'
          · rw [hst] at h'
            exact nomatch h'
          · exact Or.inr h'
        · refine ⟨?_, fun h => nomatch h⟩
          exact DefsInv_registerD hpd1 (fun he => absurd he (by decide))
            (fun _ => by decide)
  | SENT_GET_CAPABILITIES =>
    simp only
    split
    · exact ⟨hinv, fun h => Or.inl (hst ▸ h)⟩
    · split
      · exact ⟨hinv, fun h => Or.inl (hst ▸ h)⟩
      · split
        · exact ⟨hinv, fun h => Or.inl (hst ▸ h)⟩
        · obtain ⟨hpd1, hpd2⟩ :=
            processDeferreds_inv m.name m.isSuccess st hinv
          have hnoinv :
              (processDeferreds m.name m.isSuccess st).1.state =
                  .INVENTORYING →
                m.name = .ENABLE_ROSPEC_RESPONSE ∧ m.isSuccess = true := by
            intro h
            rcases hpd2 h with h' | h'
            · rw [hst] at h'
              exact nomatch h'
            · exact h'
          split
          · exact ⟨hpd1, fun h => Or.inr (hnoinv h)⟩
          · split
            · refine ⟨?_, fun h => nomatch h⟩
              exact DefsInv_registerD hpd1
                (fun he => absurd he (by decide))
                (fun _ => noInvD_capsStop _)
            · split
              · refine ⟨startInventory_inv _ hpd1, fun h => ?_⟩
                exact Or.inr (hnoinv (startInventory_state _ h))
              · exact ⟨hpd1, fun h => Or.inr (hnoinv h)⟩
  | SENT_ADD_ROSPEC =>
    simp only
    split
    · exact ⟨hinv, fun h => Or.inl (hst ▸ h)⟩
    · split
      · exact ⟨hinv, fun h => Or.inl (hst ▸ h)⟩
      · obtain ⟨hpd1, hpd2⟩ :=
          processDeferreds_inv m.name m.isSuccess st hinv
        refine ⟨hpd1, fun h => ?_⟩
        rcases hpd2 h with h' | h'
        · rw [hst] at h'
          exact nomatch h'
        · exact Or.inr h'
  | PAUSING =>
    simp only
    split
    · exact ⟨hinv, fun h => Or.inl (hst ▸ h)⟩
    · obtain ⟨hpd1, hpd2⟩ :=
        processDeferreds_inv m.name m.isSuccess st hinv
      refine ⟨hpd1, fun h => ?_⟩
      rcases hpd2 h with h' | h'
      · rw [hst] at h'
        exact nomatch h'
      · exact Or.inr h'
  | SENT_ENABLE_ROSPEC =>
    simp only
    split
    · exact ⟨hinv, fun h => Or.inl (hst ▸ h)⟩
    · obtain ⟨hpd1, hpd2⟩ :=
        processDeferreds_inv m.name m.isSuccess st hinv
      refine ⟨hpd1, fun h => ?_⟩
      rcases hpd2 h with h' | h'
      · rw [hst] at h'
        exact nomatch h'
      · exact Or.inr h'
  | INVENTORYING =>
    simp only
    split
    · obtain ⟨hpd1, hpd2⟩ :=
        processDeferreds_inv m.name m.isSuccess st hinv
      exact ⟨hpd1, fun h => Or.inl trivial⟩
    · exact ⟨hinv, fun h => Or.inl trivial⟩
  | SENT_DELETE_ACCESSSPEC =>
    simp only
    obtain ⟨hpd1, hpd2⟩ :=
      processDeferreds_inv m.name m.isSuccess st hinv
    refine ⟨hpd1, fun h => ?_⟩
    rcases hpd2 h with h' | h'
    · rw [hst] at h'
      exact nomatch h'
    · exact Or.inr h'
  | SENT_DELETE_ROSPEC =>
    simp only
    split
    · exact ⟨hinv, fun h => Or.inl (hst ▸ h)⟩
    · generalize hA :
        (if m.isSuccess = true then
          setSt (if st.disconnecting = true then .DISCONNECTED
            else .CONNECTED) st
         else st) = stA
      have hAstate : ¬ stA.state = .INVENTORYING := by
        rw [← hA]
        split
        · split <;> exact fun h => nomatch h
        · rw [hst]
          exact fun h => nomatch h
      have hAinv : DefsInv stA := by
        rw [← hA]
        split
        · exact hinv
        · exact hinv
      obtain ⟨hpd1, hpd2⟩ :=
        processDeferreds_inv m.name m.isSuccess stA hAinv
      have hout :
          (processDeferreds m.name m.isSuccess stA).1.state =
              .INVENTORYING →
            St.SENT_DELETE_ROSPEC = St.INVENTORYING ∨
              (m.name = .ENABLE_ROSPEC_RESPONSE ∧ m.isSuccess = true) := by
        intro h
        rcases hpd2 h with h' | h'
        · exact absurd h' hAstate
        · exact Or.inr h'
      split
      · exact ⟨hpd1, hout⟩
      · split
        · exact ⟨hpd1, hout⟩
        · exact ⟨hpd1, hout⟩
  | PAUSED => exact ⟨hinv, fun h => Or.inl (hst ▸ h)⟩

/-- State-machine invariant at message level. -/
theorem handleMessage_inv (m : InMsg) (st : PState) (hinv : DefsInv st) :
    DefsInv (handleMessage m st) ∧
    ((handleMessage m st).state = .INVENTORYING →
      st.state = .INVENTORYING ∨
        (m.name = .ENABLE_ROSPEC_RESPONSE ∧ m.isSuccess = true)) := by
  unfold handleMessage
  simp only
  split
  · exact ⟨hinv, fun h => Or.inl h⟩
  · split
    · exact ⟨hinv, fun h => Or.inl h⟩
    · exact handleMachine_inv m
        { st with fired := st.fired ++ st.msgCbs m.name } hinv


/-- One-step invariant: a step can move the machine into INVENTORYING
    only by processing a successful ENABLE_ROSPEC_RESPONSE message. -/
theorem step_inv (e : Event) (st : PState) (hinv : DefsInv st) :
    DefsInv (step e st) ∧
    ((step e st).state = .INVENTORYING →
      st.state = .INVENTORYING ∨
        ∃ m, e = .msg m ∧ m.name = .ENABLE_ROSPEC_RESPONSE ∧
          m.isSuccess = true) := by
  cases e with
  | msg m =>
    obtain ⟨h1, h2⟩ := handleMessage_inv m st hinv
    refine ⟨h1, fun h => ?_⟩
    rcases h2 h with h' | h'
    · exact Or.inl h'
    · exact Or.inr ⟨m, rfl, h'⟩
  | startInv =>
    exact ⟨startInventory_inv st hinv,
      fun h => Or.inl (startInventory_state st h)⟩
  | pauseE f =>
    exact ⟨pause_inv f st hinv, fun h => Or.inl (pause_state f st h)⟩
  | resumeE =>
    exact ⟨resume_inv st hinv, fun h => Or.inl (resume_state st h)⟩
  | stopE b =>
    exact ⟨stopPolitely_inv b st hinv,
      fun h => Or.inl (stopPolitely_state b st h)⟩
  | addCb n cb => exact ⟨hinv, fun h => Or.inl h⟩

theorem Reachable_DefsInv {roc si : Bool} {cbs : MsgName → List Nat}
    {st : PState} (h : Reachable roc si cbs st) : DefsInv st := by
  induction h with
  | init =>
    constructor
    · intro d hd; cases hd
    · intro n hn d hd; cases hd
  | next e hr ih => exact (step_inv e _ ih).1

/-- C3: in every reachable execution of the connection state machine,
    the state becomes INVENTORYING only at the processing of an
    ENABLE_ROSPEC_RESPONSE message classified as successful — no other
    event (message or internal call) can move the machine into
    INVENTORYING. -/
theorem inventorying_requires_enable_rospec_success
    (roc si : Bool) (cbs : MsgName → List Nat) (st : PState) (e : Event)
    (hreach : Reachable roc si cbs st)
    (hnew : (step e st).state = .INVENTORYING) :
    st.state = .INVENTORYING ∨
      ∃ m, e = .msg m ∧ m.name = .ENABLE_ROSPEC_RESPONSE ∧
        m.isSuccess = true :=
  (step_inv e st (Reachable_DefsInv hreach)).2 hnew

/-- The state reached after the happy-path dialogue up to sending
    ENABLE_ROSPEC: reader event, capabilities response, ADD_ROSPEC
    acknowledged. -/
def happyPath : PState :=
  step (.msg ⟨.ADD_ROSPEC_RESPONSE, true, true, true⟩)
    (step (.msg ⟨.GET_READER_CAPABILITIES_RESPONSE, true, true, true⟩)
      (step (.msg ⟨.READER_EVENT_NOTIFICATION, true, true, true⟩)
        (initState false true fun _ => [])))

/-- Witness for the C3 theorem: the happy-path trace reaches
    SENT_ENABLE_ROSPEC and the successful ENABLE_ROSPEC_RESPONSE moves
    it into INVENTORYING. -/
theorem inventorying_requires_enable_rospec_success_witness :
    (step (.msg ⟨.ENABLE_ROSPEC_RESPONSE, true, true, true⟩) happyPath).state =
      .INVENTORYING ∧
    (happyPath.state = .INVENTORYING ∨
      ∃ m, (Event.msg ⟨.ENABLE_ROSPEC_RESPONSE, true, true, true⟩) = .msg m ∧
        m.name = .ENABLE_ROSPEC_RESPONSE ∧ m.isSuccess = true) :=
  ⟨rfl,
    inventorying_requires_enable_rospec_success false true (fun _ => [])
      happyPath (.msg ⟨.ENABLE_ROSPEC_RESPONSE, true, true, true⟩)
      (Reachable.next (.msg ⟨.ADD_ROSPEC_RESPONSE, true, true, true⟩)
        (Reachable.next (.msg ⟨.GET_READER_CAPABILITIES_RESPONSE, true, true, true⟩)
          (Reachable.next (.msg ⟨.READER_EVENT_NOTIFICATION, true, true, true⟩)
            Reachable.init)))
      rfl⟩

/-! Claim C7: behaviour of the teardown responses on a non-Success
    status. -/

/-- The Deferred pause() registers for DISABLE_ROSPEC_RESPONSE. -/
def pauseDfrd : Dfrd :=
  [(some (.setStateW .PAUSED), none), (none, some .complainH)]

/-- The Deferred stopPolitely registers for DELETE_ACCESSSPEC_RESPONSE. -/
def stopDfrd : Dfrd := [(some .stopAllROSpecsH, none), (none, some .panicH)]

/-- The Deferred stopAllROSpecs registers for DELETE_ROSPEC_RESPONSE. -/
def delRoDfrd : Dfrd := [(none, some .panicH)]

/-- A connection in PAUSING with the pause() Deferred registered, as
    pause() leaves it. -/
def pausingSt : PState :=
  ⟨.PAUSING,
    fun k => if k = .DISABLE_ROSPEC_RESPONSE then [pauseDfrd] else [],
    fun _ => [], [], [], false, false, false, false⟩

/-- handleMessage reduces to the per-state machine on the
    callback-updated state when the message is neither a KEEPALIVE nor a
    dropped report. -/
theorem handleMessage_eq_machine (m : InMsg) (st : PState)
    (h1 : ¬ m.name = .KEEPALIVE)
    (h2 : ¬ (m.name = .RO_ACCESS_REPORT ∧ st.state ≠ .INVENTORYING)) :
    handleMessage m st =
      handleMachine m { st with fired := st.fired ++ st.msgCbs m.name } := by
  unfold handleMessage
  simp only [if_neg h1, if_neg h2]

/-- The PAUSING branch of the machine: the status extraction aborts a
    failure without LLRPStatus before the drain; otherwise the branch is
    exactly the drain. -/
theorem handleMachine_pausing (m : InMsg) (st : PState)
    (hst : st.state = .PAUSING) :
    handleMachine m st =
      (if ¬ m.isSuccess ∧ ¬ m.hasStatus then st
       else (processDeferreds m.name m.isSuccess st).1) := by
  unfold handleMachine
  rw [hst]

/-- The PAUSING branch when the drain is reached (success, or a failure
    whose message does carry LLRPStatus). -/
theorem handleMachine_pausing_drain (m : InMsg) (st : PState)
    (hst : st.state = .PAUSING)
    (hgd : m.isSuccess = true ∨ m.hasStatus = true) :
    handleMachine m st = (processDeferreds m.name m.isSuccess st).1 := by
  rw [handleMachine_pausing m st hst,
    if_neg (fun hc => hgd.elim (fun h => hc.1 h) (fun h => hc.2 h))]

/-- The SENT_DELETE_ACCESSSPEC branch of the machine is exactly the
    drain. -/
theorem handleMachine_sdacc (m : InMsg) (st : PState)
    (hst : st.state = .SENT_DELETE_ACCESSSPEC) :
    handleMachine m st = (processDeferreds m.name m.isSuccess st).1 := by
  unfold handleMachine
  rw [hst]

/-- The SENT_DELETE_ROSPEC branch on a failure carrying LLRPStatus: no
    state change before the drain; the transport close is reached only
    when the drain does not re-raise. -/
theorem handleMachine_sdr_fail (m : InMsg) (st : PState)
    (hst : st.state = .SENT_DELETE_ROSPEC) (hs : m.isSuccess = false)
    (hstat : m.hasStatus = true) :
    handleMachine m st =
      (if (processDeferreds m.name false st).2 then
        (processDeferreds m.name false st).1
       else if (processDeferreds m.name false st).1.disconnecting then
        { (processDeferreds m.name false st).1 with transportClosed := true }
       else (processDeferreds m.name false st).1) := by
  unfold handleMachine
  rw [hst, hs, hstat]
  rfl

/-- Draining one Deferred whose errback pass does nothing (its only
    handlers in errback position are panic or complain) leaves the state
    unchanged and clears the key. -/
theorem processDeferreds_errback_noop (n : MsgName) (st : PState) (d : Dfrd)
    (h : st.defs n = [d])
    (hex : ∀ s, deferredExecute d 1 false s = (s, false)) :
    processDeferreds n false st =
      ({ st with defs := fun k => if k = n then [] else st.defs k },
        false) := by
  unfold processDeferreds
  simp only [h]
  unfold drainLoop
  simp only [Bool.false_eq_true, if_false, hex st]
  simp only [List.isEmpty_cons, Bool.false_eq_true, if_false]
  rfl

/-- Draining one Deferred whose errback pass re-raises without changing
    the state (panic in errback position) aborts processDeferreds: the
    del is never reached, the key keeps the drained-empty record — the
    queue stays non-empty — and the exception propagates. -/
theorem processDeferreds_errback_raise (n : MsgName) (st : PState)
    (d : Dfrd) (h : st.defs n = [d])
    (hex : ∀ s, deferredExecute d 1 false s = (s, true)) :
    processDeferreds n false st =
      ({ st with defs := fun k => if k = n then [[]] else st.defs k },
        true) := by
  unfold processDeferreds
  simp only [h]
  unfold drainLoop
  simp only [Bool.false_eq_true, if_false, hex st]
  simp only [List.isEmpty_cons, Bool.false_eq_true, if_false]
  rfl

/-- C7 counterexample: in PAUSING with the pause() continuation
    registered, a DISABLE_ROSPEC_RESPONSE classified as failure leaves
    the machine in PAUSING, while a success advances it to PAUSED — the
    failure does not advance the state machine to the success state. -/
theorem teardown_failure_counterexample :
    (handleMessage ⟨.DISABLE_ROSPEC_RESPONSE, false, true, true⟩ pausingSt).state =
      .PAUSING ∧
    (handleMessage ⟨.DISABLE_ROSPEC_RESPONSE, true, true, true⟩ pausingSt).state =
      .PAUSED ∧
    St.PAUSING ≠ St.PAUSED := by
  refine ⟨rfl, rfl, by decide⟩

/-- C7 amended: on a non-Success teardown response carrying LLRPStatus
    in the state awaiting it, the state machine does NOT advance.  In
    PAUSING the complain errback of the pause() continuation fires,
    returns normally, the queue is drained and the machine stays in
    PAUSING, sending nothing.  For DELETE_ACCESSSPEC_RESPONSE and
    DELETE_ROSPEC_RESPONSE the panic errback fires and raises
    (AttributeError on the failure argument), the drain re-raises before
    the registry del: the machine stays in SENT_DELETE_ACCESSSPEC /
    SENT_DELETE_ROSPEC, sends nothing, the drained-empty continuation
    record stays queued, and in the SENT_DELETE_ROSPEC case the
    transport close after the drain is never reached, disconnecting or
    not. -/
theorem teardown_failure_amended (st : PState) (c : Bool) :
    (st.state = .PAUSING →
      st.defs .DISABLE_ROSPEC_RESPONSE = [pauseDfrd] →
      (handleMessage ⟨.DISABLE_ROSPEC_RESPONSE, false, c, true⟩ st).state =
          .PAUSING ∧
      (handleMessage ⟨.DISABLE_ROSPEC_RESPONSE, false, c, true⟩ st).sent =
          st.sent) ∧
    (st.state = .SENT_DELETE_ACCESSSPEC →
      st.defs .DELETE_ACCESSSPEC_RESPONSE = [stopDfrd] →
      (handleMessage ⟨.DELETE_ACCESSSPEC_RESPONSE, false, c, true⟩ st).state =
          .SENT_DELETE_ACCESSSPEC ∧
      (handleMessage ⟨.DELETE_ACCESSSPEC_RESPONSE, false, c, true⟩ st).sent =
          st.sent ∧
      (handleMessage ⟨.DELETE_ACCESSSPEC_RESPONSE, false, c, true⟩ st).defs
          .DELETE_ACCESSSPEC_RESPONSE = [[]]) ∧
    (st.state = .SENT_DELETE_ROSPEC →
      st.defs .DELETE_ROSPEC_RESPONSE = [delRoDfrd] →
      (handleMessage ⟨.DELETE_ROSPEC_RESPONSE, false, c, true⟩ st).state =
          .SENT_DELETE_ROSPEC ∧
      (handleMessage ⟨.DELETE_ROSPEC_RESPONSE, false, c, true⟩ st).sent =
          st.sent ∧
      (handleMessage ⟨.DELETE_ROSPEC_RESPONSE, false, c, true⟩
          st).transportClosed = st.transportClosed) := by
  refine ⟨fun hst hd => ?_, fun hst hd => ?_, fun hst hd => ?_⟩
  · rw [handleMessage_eq_machine _ _ (fun h => MsgName.noConfusion h)
      (fun h => MsgName.noConfusion h.1)]
    set st1 := { st with
      fired := st.fired ++ st.msgCbs MsgName.DISABLE_ROSPEC_RESPONSE }
    have hd1 : st1.defs .DISABLE_ROSPEC_RESPONSE = [pauseDfrd] := hd
    rw [handleMachine_pausing_drain _ st1 hst (Or.inr rfl),
      processDeferreds_errback_noop .DISABLE_ROSPEC_RESPONSE st1 pauseDfrd
        hd1 (fun s => rfl)]
    exact ⟨hst, rfl⟩
  · rw [handleMessage_eq_machine _ _ (fun h => MsgName.noConfusion h)
      (fun h => MsgName.noConfusion h.1)]
    set st1 := { st with
      fired := st.fired ++ st.msgCbs MsgName.DELETE_ACCESSSPEC_RESPONSE }
    have hd1 : st1.defs .DELETE_ACCESSSPEC_RESPONSE = [stopDfrd] := hd
    rw [handleMachine_sdacc _ st1 hst,
      processDeferreds_errback_raise .DELETE_ACCESSSPEC_RESPONSE st1 stopDfrd
        hd1 (fun s => rfl)]
    exact ⟨hst, rfl, by simp⟩
  · rw [handleMessage_eq_machine _ _ (fun h => MsgName.noConfusion h)
      (fun h => MsgName.noConfusion h.1)]
    set st1 := { st with
      fired := st.fired ++ st.msgCbs MsgName.DELETE_ROSPEC_RESPONSE }
    have hd1 : st1.defs .DELETE_ROSPEC_RESPONSE = [delRoDfrd] := hd
    rw [handleMachine_sdr_fail _ st1 hst rfl rfl,
      processDeferreds_errback_raise .DELETE_ROSPEC_RESPONSE st1 delRoDfrd
        hd1 (fun s => rfl)]
    rw [if_pos rfl]
    exact ⟨hst, rfl, rfl⟩

/-- A disconnecting connection awaiting DELETE_ROSPEC_RESPONSE with the
    stopAllROSpecs continuation registered. -/
def deletingSt : PState :=
  ⟨.SENT_DELETE_ROSPEC,
    fun k => if k = .DELETE_ROSPEC_RESPONSE then [delRoDfrd] else [],
    fun _ => [], [], [], true, false, false, false⟩

/-- Witness for the amended teardown theorem, at the PAUSING scenario
    and at a disconnecting SENT_DELETE_ROSPEC scenario where the failed
    delete leaves the transport open. -/
theorem teardown_failure_amended_witness :
    pausingSt.state = .PAUSING ∧
    pausingSt.defs .DISABLE_ROSPEC_RESPONSE = [pauseDfrd] ∧
    (handleMessage ⟨.DISABLE_ROSPEC_RESPONSE, false, true, true⟩ pausingSt).state =
        .PAUSING ∧
    deletingSt.state = .SENT_DELETE_ROSPEC ∧
    deletingSt.defs .DELETE_ROSPEC_RESPONSE = [delRoDfrd] ∧
    deletingSt.disconnecting = true ∧
    (handleMessage ⟨.DELETE_ROSPEC_RESPONSE, false, true, true⟩
        deletingSt).transportClosed = deletingSt.transportClosed :=
  ⟨rfl, rfl, ((teardown_failure_amended pausingSt true).1 rfl rfl).1,
    rfl, rfl, rfl,
    ((teardown_failure_amended deletingSt true).2.2 rfl rfl).2.2⟩

/-! Claim C8: which responses actually fire and empty their continuation
    queues. -/

/-- No callback slot of the Deferred holds a raising handler (panic
    raises on every invocation, raiseH by definition).  True of every
    chain this module registers: panic only ever sits in errback
    position. -/
def noRaiseCb (d : Dfrd) : Prop :=
  ∀ p ∈ d, p.1 ≠ some .raiseH ∧ p.1 ≠ some .panicH

/-- Every registered Deferred has raise-free callback slots. -/
def noRaiseCbSt (st : PState) : Prop := ∀ n, ∀ d ∈ st.defs n, noRaiseCb d

instance (d : Dfrd) : Decidable (noRaiseCb d) := by
  unfold noRaiseCb; exact List.decidableBAll _ d

theorem runHandler_cb_noraise (h : Handler) (st : PState)
    (h1 : ¬ h = .raiseH) (h2 : ¬ h = .panicH) :
    (runHandler h st).2 = false := by
  cases h
  case raiseH => exact absurd rfl h1
  case panicH => exact absurd rfl h2
  all_goals rfl

/-- A callback pass over a chain with raise-free callback slots never
    switches to errback mode, so it ends without an exception. -/
theorem deferredExecute_cb_noexc :
    ∀ (d : Dfrd), noRaiseCb d → ∀ (st : PState),
      (deferredExecute d 0 false st).2 = false
  | [], _, _ => rfl
  | p :: rest, hd, st => by
    have hp := hd p (List.mem_cons_self p rest)
    have hrest : noRaiseCb rest :=
      fun q hq => hd q (List.mem_cons_of_mem p hq)
    unfold deferredExecute
    cases hsel : (if (0 : Nat) = 0 then p.1 else p.2) with
    | none => exact deferredExecute_cb_noexc rest hrest st
    | some h =>
      rw [if_pos rfl] at hsel
      have hne1 : ¬ h = .raiseH :=
        fun hh => hp.1 (hsel.trans (congrArg some hh))
      have hne2 : ¬ h = .panicH :=
        fun hh => hp.2 (hsel.trans (congrArg some hh))
      simp only
      rw [runHandler_cb_noraise h st hne1 hne2]
      simp only [Bool.false_eq_true, if_false]
      exact deferredExecute_cb_noexc rest hrest (runHandler h st).1

theorem drainLoop_suc_noexc :
    ∀ (ds : List Dfrd), (∀ d ∈ ds, noRaiseCb d) → ∀ (st : PState),
      (drainLoop ds true st).2.1 = false
  | [], _, _ => rfl
  | d :: rest, hds, st => by
    have hd := hds d (List.mem_cons_self d rest)
    have hrest : ∀ q ∈ rest, noRaiseCb q :=
      fun q hq => hds q (List.mem_cons_of_mem d hq)
    unfold drainLoop
    simp only [eq_self_iff_true, if_true]
    rw [deferredExecute_cb_noexc d hd st]
    simp only [Bool.false_eq_true, if_false]
    exact drainLoop_suc_noexc rest hrest _

/-- When no callback slot under the key raises, a success drain
    completes: no exception propagates and the key's queue is empty
    afterwards. -/
theorem processDeferreds_suc_defs (n : MsgName) (st : PState)
    (hnc : ∀ d ∈ st.defs n, noRaiseCb d) :
    (processDeferreds n true st).1.defs n = [] ∧
    (processDeferreds n true st).2 = false := by
  unfold processDeferreds
  simp only
  split
  · rename_i hemp
    exact ⟨List.isEmpty_iff.mp hemp, by trivial⟩
  · rw [drainLoop_suc_noexc (st.defs n) hnc st]
    simp only [Bool.false_eq_true, if_false]
    exact ⟨by simp, by trivial⟩

theorem registerD_defs_ne (k n : MsgName) (d : Dfrd) (st : PState)
    (h : ¬ n = k) : (registerD k d st).defs n = st.defs n := by
  unfold registerD
  simp only
  rw [if_neg h]

theorem startInventory_defs_ne (n : MsgName) (st : PState)
    (h : ¬ n = .ADD_ROSPEC_RESPONSE) :
    (startInventory st).defs n = st.defs n := by
  unfold startInventory
  split
  · rfl
  · exact registerD_defs_ne _ _ _ _ h

/-- The CONNECTED (and other connect-phase) branch of the machine,
    spelled out. -/
theorem handleMachine_connected (m : InMsg) (st : PState)
    (hst : st.state = .CONNECTED) :
    handleMachine m st =
      (if m.name ≠ .READER_EVENT_NOTIFICATION then st
       else if ¬ m.isSuccess then st
       else
        let r := processDeferreds m.name m.isSuccess st
        if r.2 then r.1
        else
          registerD .GET_READER_CAPABILITIES_RESPONSE
            [(some (.setStateW .CONNECTED), none), (none, some .panicH)]
            (setSt .SENT_GET_CAPABILITIES
              (sendMsg .GET_READER_CAPABILITIES r.1))) := by
  unfold handleMachine
  rw [hst]

/-- The SENT_GET_CAPABILITIES branch of the machine, spelled out. -/
theorem handleMachine_sgc (m : InMsg) (st : PState)
    (hst : st.state = .SENT_GET_CAPABILITIES) :
    handleMachine m st =
      (if m.name ≠ .GET_READER_CAPABILITIES_RESPONSE then st
       else if ¬ m.isSuccess then st
       else if ¬ m.capsOk then st
       else
        let r := processDeferreds m.name m.isSuccess st
        if r.2 then r.1
        else if r.1.reset_on_connect then
          registerD .DELETE_ACCESSSPEC_RESPONSE
            ([(some .stopAllROSpecsH, none), (none, some .panicH)] ++
              (if r.1.start_inventory then [(some .startInventoryH, none)]
               else []))
            (setSt .SENT_DELETE_ACCESSSPEC (sendMsg .DELETE_ACCESSSPEC r.1))
        else if r.1.start_inventory then startInventory r.1
        else r.1) := by
  unfold handleMachine
  rw [hst]

/-- The SENT_ADD_ROSPEC branch of the machine, spelled out. -/
theorem handleMachine_sar (m : InMsg) (st : PState)
    (hst : st.state = .SENT_ADD_ROSPEC) :
    handleMachine m st =
      (if m.name ≠ .ADD_ROSPEC_RESPONSE then st
       else if ¬ m.isSuccess then st
       else (processDeferreds m.name m.isSuccess st).1) := by
  unfold handleMachine
  rw [hst]

/-- The SENT_ENABLE_ROSPEC branch of the machine, spelled out. -/
theorem handleMachine_ser (m : InMsg) (st : PState)
    (hst : st.state = .SENT_ENABLE_ROSPEC) :
    handleMachine m st =
      (if ¬ m.isSuccess then st
       else (processDeferreds m.name m.isSuccess st).1) := by
  unfold handleMachine
  rw [hst]

/-- The SENT_DELETE_ROSPEC branch of the machine, spelled out. -/
theorem handleMachine_sdr (m : InMsg) (st : PState)
    (hst : st.state = .SENT_DELETE_ROSPEC) :
    handleMachine m st =
      (if ¬ m.isSuccess ∧ ¬ m.hasStatus then st
       else
        let stA :=
          if m.isSuccess then
            setSt (if st.disconnecting then .DISCONNECTED else .CONNECTED) st
          else st
        let r := processDeferreds m.name m.isSuccess stA
        if r.2 then r.1
        else if r.1.disconnecting then { r.1 with transportClosed := true }
        else r.1) := by
  unfold handleMachine
  rw [hst]

/-- The Deferred the connect branch registers for
    GET_READER_CAPABILITIES_RESPONSE. -/
def capsDfrd : Dfrd :=
  [(some (.setStateW .CONNECTED), none), (none, some .panicH)]

/-- A connection awaiting the capabilities response with its
    continuation registered, as send_GET_READER_CAPABILITIES leaves
    it. -/
def sentCapsSt : PState :=
  ⟨.SENT_GET_CAPABILITIES,
    fun k => if k = .GET_READER_CAPABILITIES_RESPONSE then [capsDfrd]
      else [],
    fun _ => [], [], [], false, false, false, true⟩

/-- C8 counterexample: a GET_READER_CAPABILITIES_RESPONSE classified as
    failure is processed by handleMessage (fatal log, early return), but
    its registered continuation is never fired: the continuation queue
    for the message name is still non-empty afterwards. -/
theorem continuation_residual_counterexample :
    (handleMessage ⟨.GET_READER_CAPABILITIES_RESPONSE, false, true, true⟩
        sentCapsSt).defs .GET_READER_CAPABILITIES_RESPONSE = [capsDfrd] ∧
    ([capsDfrd] : List Dfrd) ≠ [] ∧
    (handleMessage ⟨.GET_READER_CAPABILITIES_RESPONSE, false, true, true⟩
        sentCapsSt).state = .SENT_GET_CAPABILITIES :=
  ⟨rfl, by decide, rfl⟩

/-- C8 amended: a continuation queue empties exactly when the branch
    reaches its drain and every fired handler returns normally.  That
    holds for success-classified expected responses (the module keeps
    panic out of the callback slots) and, in PAUSING, also for a failure
    carrying LLRPStatus (the complain errback returns normally).  It
    fails everywhere else: failure-classified responses in the fatal
    branches (connect phase, SENT_GET_CAPABILITIES, SENT_ADD_ROSPEC,
    SENT_ENABLE_ROSPEC) return early with the queue untouched and the
    continuations unfired; a failure without LLRPStatus in PAUSING or
    SENT_DELETE_ROSPEC raises KeyError before the drain, queue
    untouched; and a failure-classified DELETE_ACCESSSPEC_RESPONSE or
    DELETE_ROSPEC_RESPONSE fires the panic errback, which raises, so
    the drain re-raises before the registry del and the drained-empty
    record stays queued — the queue does not empty. -/
theorem continuation_drain_amended (st : PState) (m : InMsg)
    (hnc : noRaiseCbSt st) :
    (st.state = .CONNECTED → m.name = .READER_EVENT_NOTIFICATION →
      m.isSuccess = false →
      (handleMessage m st).defs m.name = st.defs m.name) ∧
    (st.state = .CONNECTED → m.name = .READER_EVENT_NOTIFICATION →
      m.isSuccess = true →
      (handleMessage m st).defs m.name = []) ∧
    (st.state = .SENT_GET_CAPABILITIES →
      m.name = .GET_READER_CAPABILITIES_RESPONSE → m.isSuccess = false →
      (handleMessage m st).defs m.name = st.defs m.name) ∧
    (st.state = .SENT_GET_CAPABILITIES →
      m.name = .GET_READER_CAPABILITIES_RESPONSE → m.isSuccess = true →
      m.capsOk = true →
      (handleMessage m st).defs m.name = []) ∧
    (st.state = .SENT_ADD_ROSPEC → m.name = .ADD_ROSPEC_RESPONSE →
      m.isSuccess = false →
      (handleMessage m st).defs m.name = st.defs m.name) ∧
    (st.state = .SENT_ADD_ROSPEC → m.name = .ADD_ROSPEC_RESPONSE →
      m.isSuccess = true →
      (handleMessage m st).defs m.name = []) ∧
    (st.state = .SENT_ENABLE_ROSPEC → ¬ m.name = .KEEPALIVE →
      ¬ m.name = .RO_ACCESS_REPORT → m.isSuccess = false →
      (handleMessage m st).defs m.name = st.defs m.name) ∧
    (st.state = .SENT_ENABLE_ROSPEC → ¬ m.name = .KEEPALIVE →
      ¬ m.name = .RO_ACCESS_REPORT → m.isSuccess = true →
      (handleMessage m st).defs m.name = []) ∧
    (st.state = .PAUSING → ¬ m.name = .KEEPALIVE →
      ¬ m.name = .RO_ACCESS_REPORT → m.isSuccess = true →
      (handleMessage m st).defs m.name = []) ∧
    (st.state = .PAUSING → ¬ m.name = .KEEPALIVE →
      ¬ m.name = .RO_ACCESS_REPORT → m.isSuccess = false →
      m.hasStatus = true → st.defs m.name = [pauseDfrd] →
      (handleMessage m st).defs m.name = []) ∧
    (st.state = .PAUSING → ¬ m.name = .KEEPALIVE →
      ¬ m.name = .RO_ACCESS_REPORT → m.isSuccess = false →
      m.hasStatus = false →
      (handleMessage m st).defs m.name = st.defs m.name) ∧
    (st.state = .SENT_DELETE_ACCESSSPEC → ¬ m.name = .KEEPALIVE →
      ¬ m.name = .RO_ACCESS_REPORT → m.isSuccess = true →
      (handleMessage m st).defs m.name = []) ∧
    (st.state = .SENT_DELETE_ACCESSSPEC → ¬ m.name = .KEEPALIVE →
      ¬ m.name = .RO_ACCESS_REPORT → m.isSuccess = false →
      st.defs m.name = [stopDfrd] →
      (handleMessage m st).defs m.name = [[]]) ∧
    (st.state = .SENT_DELETE_ROSPEC → ¬ m.name = .KEEPALIVE →
      ¬ m.name = .RO_ACCESS_REPORT → m.isSuccess = true →
      (handleMessage m st).defs m.name = []) ∧
    (st.state = .SENT_DELETE_ROSPEC → ¬ m.name = .KEEPALIVE →
      ¬ m.name = .RO_ACCESS_REPORT → m.isSuccess = false →
      m.hasStatus = true → st.defs m.name = [delRoDfrd] →
      (handleMessage m st).defs m.name = [[]]) ∧
    (st.state = .SENT_DELETE_ROSPEC → ¬ m.name = .KEEPALIVE →
      ¬ m.name = .RO_ACCESS_REPORT → m.isSuccess = false →
      m.hasStatus = false →
      (handleMessage m st).defs m.name = st.defs m.name) := by
  refine ⟨?_, ?_, ?_, ?_, ?_, ?_, ?_, ?_, ?_, ?_, ?_, ?_, ?_, ?_, ?_, ?_⟩
  · intro hst hn hs
    rw [handleMessage_eq_machine _ _
      (fun h => MsgName.noConfusion (hn.symm.trans h))
      (fun h => MsgName.noConfusion (hn.symm.trans h.1))]
    set st1 := { st with fired := st.fired ++ st.msgCbs m.name }
    have hst1 : st1.state = .CONNECTED := hst
    rw [handleMachine_connected m st1 hst1, hn, hs]
    rw [if_neg (fun h => h rfl), if_pos (by decide)]
  · intro hst hn hs
    rw [handleMessage_eq_machine _ _
      (fun h => MsgName.noConfusion (hn.symm.trans h))
      (fun h => MsgName.noConfusion (hn.symm.trans h.1))]
    set st1 := { st with fired := st.fired ++ st.msgCbs m.name }
    have hst1 : st1.state = .CONNECTED := hst
    rw [handleMachine_connected m st1 hst1, hn, hs]
    rw [if_neg (fun h => h rfl), if_neg (by decide)]
    obtain ⟨hd1, hx⟩ := processDeferreds_suc_defs .READER_EVENT_NOTIFICATION
      st1 (hnc .READER_EVENT_NOTIFICATION)
    simp only
    rw [hx]
    simp only [Bool.false_eq_true, if_false]
    rw [registerD_defs_ne _ _ _ _ (fun h => MsgName.noConfusion h)]
    exact hd1
  · intro hst hn hs
    rw [handleMessage_eq_machine _ _
      (fun h => MsgName.noConfusion (hn.symm.trans h))
      (fun h => MsgName.noConfusion (hn.symm.trans h.1))]
    set st1 := { st with fired := st.fired ++ st.msgCbs m.name }
    have hst1 : st1.state = .SENT_GET_CAPABILITIES := hst
    rw [handleMachine_sgc m st1 hst1, hn, hs]
    rw [if_neg (fun h => h rfl), if_pos (by decide)]
  · intro hst hn hs hc
    rw [handleMessage_eq_machine _ _
      (fun h => MsgName.noConfusion (hn.symm.trans h))
      (fun h => MsgName.noConfusion (hn.symm.trans h.1))]
    set st1 := { st with fired := st.fired ++ st.msgCbs m.name }
    have hst1 : st1.state = .SENT_GET_CAPABILITIES := hst
    rw [handleMachine_sgc m st1 hst1, hn, hs, hc]
    rw [if_neg (fun h => h rfl), if_neg (by decide), if_neg (by decide)]
    obtain ⟨hd1, hx⟩ := processDeferreds_suc_defs
      .GET_READER_CAPABILITIES_RESPONSE st1
      (hnc .GET_READER_CAPABILITIES_RESPONSE)
    simp only
    rw [hx]
    simp only [Bool.false_eq_true, if_false]
    split
    · rw [registerD_defs_ne _ _ _ _ (fun h => MsgName.noConfusion h)]
      exact hd1
    · split
      · rw [startInventory_defs_ne _ _ (fun h => MsgName.noConfusion h)]
        exact hd1
      · exact hd1
  · intro hst hn hs
    rw [handleMessage_eq_machine _ _
      (fun h => MsgName.noConfusion (hn.symm.trans h))
      (fun h => MsgName.noConfusion (hn.symm.trans h.1))]
    set st1 := { st with fired := st.fired ++ st.msgCbs m.name }
    have hst1 : st1.state = .SENT_ADD_ROSPEC := hst
    rw [handleMachine_sar m st1 hst1, hn, hs]
    rw [if_neg (fun h => h rfl), if_pos (by decide)]
  · intro hst hn hs
    rw [handleMessage_eq_machine _ _
      (fun h => MsgName.noConfusion (hn.symm.trans h))
      (fun h => MsgName.noConfusion (hn.symm.trans h.1))]
    set st1 := { st with fired := st.fired ++ st.msgCbs m.name }
    have hst1 : st1.state = .SENT_ADD_ROSPEC := hst
    rw [handleMachine_sar m st1 hst1, hn, hs]
    rw [if_neg (fun h => h rfl), if_neg (by decide)]
    exact (processDeferreds_suc_defs .ADD_ROSPEC_RESPONSE st1
      (hnc .ADD_ROSPEC_RESPONSE)).1
  · intro hst hk hr hs
    rw [handleMessage_eq_machine _ _ hk (fun h => absurd h.1 hr)]
    set st1 := { st with fired := st.fired ++ st.msgCbs m.name }
    have hst1 : st1.state = .SENT_ENABLE_ROSPEC := hst
    rw [handleMachine_ser m st1 hst1, hs]
    rw [if_pos (by decide)]
  · intro hst hk hr hs
    rw [handleMessage_eq_machine _ _ hk (fun h => absurd h.1 hr)]
    set st1 := { st with fired := st.fired ++ st.msgCbs m.name }
    have hst1 : st1.state = .SENT_ENABLE_ROSPEC := hst
    rw [handleMachine_ser m st1 hst1, hs]
    rw [if_neg (by decide)]
    exact (processDeferreds_suc_defs m.name st1 (hnc m.name)).1
  · intro hst hk hr hs
    rw [handleMessage_eq_machine _ _ hk (fun h => absurd h.1 hr)]
    set st1 := { st with fired := st.fired ++ st.msgCbs m.name }
    have hst1 : st1.state = .PAUSING := hst
    rw [handleMachine_pausing_drain m st1 hst1 (Or.inl hs), hs]
    exact (processDeferreds_suc_defs m.name st1 (hnc m.name)).1
  · intro hst hk hr hs hstat hd
    rw [handleMessage_eq_machine _ _ hk (fun h => absurd h.1 hr)]
    set st1 := { st with fired := st.fired ++ st.msgCbs m.name }
    have hst1 : st1.state = .PAUSING := hst
    have hd1 : st1.defs m.name = [pauseDfrd] := hd
    rw [handleMachine_pausing_drain m st1 hst1 (Or.inr hstat), hs,
      processDeferreds_errback_noop m.name st1 pauseDfrd hd1
        (fun s => rfl)]
    simp
  · intro hst hk hr hs hstat
    rw [handleMessage_eq_machine _ _ hk (fun h => absurd h.1 hr)]
    set st1 := { st with fired := st.fired ++ st.msgCbs m.name }
    have hst1 : st1.state = .PAUSING := hst
    rw [handleMachine_pausing m st1 hst1,
      if_pos ⟨by simp [hs], by simp [hstat]⟩]
  · intro hst hk hr hs
    rw [handleMessage_eq_machine _ _ hk (fun h => absurd h.1 hr)]
    set st1 := { st with fired := st.fired ++ st.msgCbs m.name }
    have hst1 : st1.state = .SENT_DELETE_ACCESSSPEC := hst
    rw [handleMachine_sdacc m st1 hst1, hs]
    exact (processDeferreds_suc_defs m.name st1 (hnc m.name)).1
  · intro hst hk hr hs hd
    rw [handleMessage_eq_machine _ _ hk (fun h => absurd h.1 hr)]
    set st1 := { st with fired := st.fired ++ st.msgCbs m.name }
    have hst1 : st1.state = .SENT_DELETE_ACCESSSPEC := hst
    have hd1 : st1.defs m.name = [stopDfrd] := hd
    rw [handleMachine_sdacc m st1 hst1, hs,
      processDeferreds_errback_raise m.name st1 stopDfrd hd1
        (fun s => rfl)]
    simp
  · intro hst hk hr hs
    rw [handleMessage_eq_machine _ _ hk (fun h => absurd h.1 hr)]
    set st1 := { st with fired := st.fired ++ st.msgCbs m.name }
    have hst1 : st1.state = .SENT_DELETE_ROSPEC := hst
    rw [handleMachine_sdr m st1 hst1, hs]
    rw [if_neg (by simp)]
    simp only
    rw [if_pos trivial]
    cases hdis : st.disconnecting with
    | false =>
      simp only [Bool.false_eq_true, if_false]
      obtain ⟨hd1, hx⟩ := processDeferreds_suc_defs m.name
        (setSt St.CONNECTED st1) (hnc m.name)
      rw [hx]
      simp only [Bool.false_eq_true, if_false]
      split
      · exact hd1
      · exact hd1
    | true =>
      simp only [eq_self_iff_true, if_true]
      obtain ⟨hd1, hx⟩ := processDeferreds_suc_defs m.name
        (setSt St.DISCONNECTED st1) (hnc m.name)
      rw [hx]
      simp only [Bool.false_eq_true, if_false]
      split
      · exact hd1
      · exact hd1
  · intro hst hk hr hs hstat hd
    rw [handleMessage_eq_machine _ _ hk (fun h => absurd h.1 hr)]
    set st1 := { st with fired := st.fired ++ st.msgCbs m.name }
    have hst1 : st1.state = .SENT_DELETE_ROSPEC := hst
    have hd1 : st1.defs m.name = [delRoDfrd] := hd
    rw [handleMachine_sdr_fail m st1 hst1 hs hstat,
      processDeferreds_errback_raise m.name st1 delRoDfrd hd1
        (fun s => rfl)]
    rw [if_pos rfl]
    simp
  · intro hst hk hr hs hstat
    rw [handleMessage_eq_machine _ _ hk (fun h => absurd h.1 hr)]
    set st1 := { st with fired := st.fired ++ st.msgCbs m.name }
    have hst1 : st1.state = .SENT_DELETE_ROSPEC := hst
    rw [handleMachine_sdr m st1 hst1,
      if_pos ⟨by simp [hs], by simp [hstat]⟩]

/-- A connection awaiting DELETE_ACCESSSPEC_RESPONSE with stopPolitely's
    continuation registered. -/
def stoppingSt : PState :=
  ⟨.SENT_DELETE_ACCESSSPEC,
    fun k => if k = .DELETE_ACCESSSPEC_RESPONSE then [stopDfrd] else [],
    fun _ => [], [], [], false, false, false, false⟩

/-- Witness for the amended drain theorem: the failed capabilities
    response leaves its continuation queue untouched, and the failed
    DELETE_ACCESSSPEC_RESPONSE leaves the drained-empty record queued. -/
theorem continuation_drain_amended_witness :
    noRaiseCbSt sentCapsSt ∧
    sentCapsSt.state = .SENT_GET_CAPABILITIES ∧
    (handleMessage ⟨.GET_READER_CAPABILITIES_RESPONSE, false, true, true⟩
        sentCapsSt).defs .GET_READER_CAPABILITIES_RESPONSE =
      sentCapsSt.defs .GET_READER_CAPABILITIES_RESPONSE ∧
    noRaiseCbSt stoppingSt ∧
    stoppingSt.defs .DELETE_ACCESSSPEC_RESPONSE = [stopDfrd] ∧
    (handleMessage ⟨.DELETE_ACCESSSPEC_RESPONSE, false, true, true⟩
        stoppingSt).defs .DELETE_ACCESSSPEC_RESPONSE = [[]] := by
  have hnc1 : noRaiseCbSt sentCapsSt := by
    intro n d hd
    simp only [sentCapsSt] at hd
    split at hd
    · rcases List.mem_singleton.mp hd with rfl
      decide
    · cases hd
  have hnc2 : noRaiseCbSt stoppingSt := by
    intro n d hd
    simp only [stoppingSt] at hd
    split at hd
    · rcases List.mem_singleton.mp hd with rfl
      decide
    · cases hd
  refine ⟨hnc1, rfl,
    (continuation_drain_amended sentCapsSt
      ⟨.GET_READER_CAPABILITIES_RESPONSE, false, true, true⟩
      hnc1).2.2.1 rfl rfl rfl,
    hnc2, rfl,
    (continuation_drain_amended stoppingSt
      ⟨.DELETE_ACCESSSPEC_RESPONSE, false, true, true⟩
      hnc2).2.2.2.2.2.2.2.2.2.2.2.2.1 rfl
      (fun h => MsgName.noConfusion h) (fun h => MsgName.noConfusion h)
      rfl rfl⟩

/-! Claim C9: a continuation whose handler raises, during a drain. -/

/-- A Deferred holding a single raising callback and no errback. -/
def raiseDfrd : Dfrd := [(some .raiseH, none)]

/-- A Deferred whose callback records an observable effect (a state
    change). -/
def flagDfrd : Dfrd := [(some (.setStateW .CONNECTED), none)]

/-- Two continuations registered for ADD_ROSPEC_RESPONSE: the first
    raises, the second would change the state. -/
def twoContSt : PState :=
  ⟨.DISCONNECTED,
    fun k => if k = .ADD_ROSPEC_RESPONSE then [raiseDfrd, flagDfrd] else [],
    fun _ => [], [], [], false, false, false, false⟩

/-- C9 counterexample: with two continuations registered for the same
    name, the first raising (and its own chain not handling the error),
    the drain re-raises — the exception reaches the caller of
    processDeferreds — and the second continuation never runs: the
    machine state is unchanged and the second Deferred is still
    queued. -/
theorem raising_continuation_counterexample :
    (processDeferreds .ADD_ROSPEC_RESPONSE true twoContSt).2 = true ∧
    (processDeferreds .ADD_ROSPEC_RESPONSE true twoContSt).1.state =
      .DISCONNECTED ∧
    (processDeferreds .ADD_ROSPEC_RESPONSE true twoContSt).1.defs
      .ADD_ROSPEC_RESPONSE = [[], flagDfrd] :=
  ⟨rfl, rfl, rfl⟩

/-- C9 amended: within a single continuation record, a raising handler
    does not stop that record's own chain — the traceback is printed and
    the following failure handler receives the error; if the chain
    absorbs it (here: an errback that runs normally), the drain
    completes and later work proceeds.  But when a record's chain ends
    with the exception unhandled, Deferred._execute re-raises it: the
    remaining records for that message name do not run and the exception
    propagates to the caller of the drain. -/
theorem raising_continuation_amended (st : PState) (n : MsgName) (s : St)
    (d : Dfrd) :
    (st.defs n = [[(some .raiseH, none), (none, some (.setStateW s))]] →
      (processDeferreds n true st).2 = false ∧
      (processDeferreds n true st).1.state = s ∧
      (processDeferreds n true st).1.defs n = []) ∧
    (st.defs n = [[(some .raiseH, none)], d] →
      (processDeferreds n true st).2 = true ∧
      (processDeferreds n true st).1.state = st.state ∧
      (processDeferreds n true st).1.defs n = [[], d] ∧
      (processDeferreds n true st).1.fired = st.fired) := by
  constructor
  · intro h
    have hde : ∀ s' : PState, deferredExecute
        [(some Handler.raiseH, none), (none, some (Handler.setStateW s))]
        0 false s' = (setSt s s', false) := fun s' => rfl
    unfold processDeferreds
    simp only [h]
    unfold drainLoop
    simp only [eq_self_iff_true, if_true, List.isEmpty_cons,
      Bool.false_eq_true, if_false, hde]
    unfold drainLoop
    simp only [Bool.false_eq_true, if_false]
    exact ⟨by trivial, by trivial, by trivial⟩
  · intro h
    have hde : ∀ s' : PState,
        deferredExecute [(some Handler.raiseH, none)] 0 false s' =
          (s', true) := fun s' => rfl
    unfold processDeferreds
    simp only [h]
    unfold drainLoop
    simp only [eq_self_iff_true, if_true, List.isEmpty_cons,
      Bool.false_eq_true, if_false, hde]
    exact ⟨by trivial, by trivial, by trivial, by trivial⟩

/-- Witness for the amended raising-continuation theorem: a single
    record absorbing its own exception, and the two-record abort. -/
theorem raising_continuation_amended_witness :
    (pausingSt.defs .DISABLE_ROSPEC_RESPONSE =
        [[(some .raiseH, none), (none, some (.setStateW .PAUSED))]] →
      (processDeferreds .DISABLE_ROSPEC_RESPONSE true pausingSt).2 =
        false) ∧
    twoContSt.defs .ADD_ROSPEC_RESPONSE = [[(some .raiseH, none)], flagDfrd] ∧
    (processDeferreds .ADD_ROSPEC_RESPONSE true twoContSt).2 = true ∧
    (processDeferreds .ADD_ROSPEC_RESPONSE true twoContSt).1.state =
      twoContSt.state ∧
    (processDeferreds .ADD_ROSPEC_RESPONSE true twoContSt).1.defs
      .ADD_ROSPEC_RESPONSE = [[], flagDfrd] ∧
    (processDeferreds .ADD_ROSPEC_RESPONSE true twoContSt).1.fired =
      twoContSt.fired := by
  have h2 := (raising_continuation_amended twoContSt .ADD_ROSPEC_RESPONSE
    .PAUSED flagDfrd).2 rfl
  exact ⟨fun h =>
    ((raising_continuation_amended pausingSt .DISABLE_ROSPEC_RESPONSE
      .PAUSED flagDfrd).1 h).1,
    rfl, h2.1, h2.2.1, h2.2.2.1, h2.2.2.2⟩

/-! Claim C10: message callbacks fire for every inbound message, before
    and independent of the state machine. -/

/-- The multi-reader engine as far as message-callback registration is
    concerned: its message-callback registry, copied onto every new
    protocol by build_protocol. -/
structure LLRPEngine where
  msgCbs : MsgName → List Nat

/-- LLRPEngine.addTagReportCallback: register a callback under
    RO_ACCESS_REPORT. -/
def addTagReportCallback (en : LLRPEngine) (cb : Nat) : LLRPEngine :=
  ⟨fun k => if k = .RO_ACCESS_REPORT then en.msgCbs k ++ [cb]
    else en.msgCbs k⟩

/-- LLRPEngine.build_protocol: a new protocol with the engine's message
    callbacks registered on it. -/
def build_protocol (en : LLRPEngine) (roc si : Bool) : PState :=
  initState roc si en.msgCbs

theorem runHandler_fired (h : Handler) (st : PState) :
    (runHandler h st).1.fired = st.fired := by
  cases h
  case startInventoryH =>
    show (startInventory st).fired = st.fired
    unfold startInventory
    split
    · rfl
    · rfl
  all_goals rfl

theorem deferredExecute_fired :
    ∀ (d : Dfrd) (hidx : Nat) (exc : Bool) (st : PState),
      (deferredExecute d hidx exc st).1.fired = st.fired
  | [], _, _, _ => rfl
  | p :: rest, hidx, exc, st => by
    unfold deferredExecute
    cases hsel : (if hidx = 0 then p.1 else p.2) with
    | none => exact deferredExecute_fired rest hidx exc st
    | some h =>
      simp only
      split
      · exact (deferredExecute_fired rest 1 true _).trans
          (runHandler_fired h st)
      · exact (deferredExecute_fired rest 0 false _).trans
          (runHandler_fired h st)

theorem drainLoop_fired :
    ∀ (ds : List Dfrd) (suc : Bool) (st : PState),
      (drainLoop ds suc st).1.fired = st.fired
  | [], _, _ => rfl
  | d :: rest, suc, st => by
    unfold drainLoop
    simp only
    generalize (if suc = true then (0 : Nat) else 1) = hidx
    split
    · exact deferredExecute_fired d hidx false st
    · exact (drainLoop_fired rest suc _).trans
        (deferredExecute_fired d hidx false st)

theorem processDeferreds_fired (n : MsgName) (suc : Bool) (st : PState) :
    (processDeferreds n suc st).1.fired = st.fired := by
  unfold processDeferreds
  simp only
  split
  · rfl
  · split
    · exact drainLoop_fired (st.defs n) suc st
    · exact drainLoop_fired (st.defs n) suc st

theorem startInventory_fired (st : PState) :
    (startInventory st).fired = st.fired := by
  unfold startInventory
  split
  · rfl
  · rfl

theorem handleMachine_fired (m : InMsg) (st : PState) :
    (handleMachine m st).fired = st.fired := by
  unfold handleMachine
  cases hst : st.state
  case PAUSING =>
    simp only
    by_cases hg : ¬ m.isSuccess = true ∧ ¬ m.hasStatus = true
    · rw [if_pos hg]
    · rw [if_neg hg]
      exact processDeferreds_fired m.name m.isSuccess st
  case SENT_DELETE_ACCESSSPEC =>
    exact processDeferreds_fired m.name m.isSuccess st
  case PAUSED => rfl
  case INVENTORYING =>
    simp only
    split
    · exact processDeferreds_fired m.name m.isSuccess st
    · rfl
  case SENT_ENABLE_ROSPEC =>
    simp only
    split
    · rfl
    · exact processDeferreds_fired m.name m.isSuccess st
  case SENT_ADD_ROSPEC =>
    simp only
    split
    · rfl
    · split
      · rfl
      · exact processDeferreds_fired m.name m.isSuccess st
  case DISCONNECTED | CONNECTING | CONNECTED =>
    simp only
    split
    · rfl
    · split
      · rfl
      · split
        · exact processDeferreds_fired m.name m.isSuccess st
        · exact processDeferreds_fired m.name m.isSuccess st
  case SENT_GET_CAPABILITIES =>
    simp only
    split
    · rfl
    · split
      · rfl
      · split
        · rfl
        · split
          · exact processDeferreds_fired m.name m.isSuccess st
          · split
            · exact processDeferreds_fired m.name m.isSuccess st
            · split
              · exact (startInventory_fired _).trans
                  (processDeferreds_fired m.name m.isSuccess st)
              · exact processDeferreds_fired m.name m.isSuccess st
  case SENT_DELETE_ROSPEC =>
    simp only
    by_cases hg : ¬ m.isSuccess = true ∧ ¬ m.hasStatus = true
    · rw [if_pos hg]
    · rw [if_neg hg]
      generalize hA :
        (if m.isSuccess = true then
          setSt (if st.disconnecting = true then St.DISCONNECTED
            else St.CONNECTED) st
         else st) = stA
      have hAf : stA.fired = st.fired := by
        rw [← hA]
        split
        · rfl
        · rfl
      split
      · exact (processDeferreds_fired m.name m.isSuccess stA).trans hAf
      · split
        · exact (processDeferreds_fired m.name m.isSuccess stA).trans hAf
        · exact (processDeferreds_fired m.name m.isSuccess stA).trans hAf

/-- C10: handleMessage fires every message callback registered for the
    inbound message's name — including tag-report callbacks registered
    through addTagReportCallback and copied onto the protocol by
    build_protocol — before and regardless of any state-machine
    processing: the fired log grows by exactly the registered callbacks
    in every state, and an RO_ACCESS_REPORT arriving outside
    INVENTORYING is still delivered to all of them while the rest of the
    connection state is left untouched. -/
theorem message_callbacks_always_fire (st : PState) (m : InMsg)
    (en : LLRPEngine) (cb : Nat) (roc si : Bool) :
    ((handleMessage m st).fired = st.fired ++ st.msgCbs m.name) ∧
    (m.name = .RO_ACCESS_REPORT → st.state ≠ .INVENTORYING →
      handleMessage m st =
        { st with fired := st.fired ++ st.msgCbs .RO_ACCESS_REPORT }) ∧
    ((build_protocol (addTagReportCallback en cb) roc si).msgCbs
        .RO_ACCESS_REPORT = en.msgCbs .RO_ACCESS_REPORT ++ [cb]) := by
  refine ⟨?_, ?_, ?_⟩
  · unfold handleMessage
    simp only
    split
    · rfl
    · split
      · rfl
      · exact handleMachine_fired m
          { st with fired := st.fired ++ st.msgCbs m.name }
  · intro hn hs
    unfold handleMessage
    rw [hn]
    rw [if_neg (fun h => MsgName.noConfusion h), if_pos ⟨rfl, hs⟩]
  · show (if MsgName.RO_ACCESS_REPORT = MsgName.RO_ACCESS_REPORT then
      en.msgCbs .RO_ACCESS_REPORT ++ [cb]
      else en.msgCbs .RO_ACCESS_REPORT) = _
    rw [if_pos rfl]

/-- Witness for the message-callback theorem: a report arriving while
    PAUSING is still delivered. -/
theorem message_callbacks_always_fire_witness :
    ((handleMessage ⟨.RO_ACCESS_REPORT, true, true, true⟩ pausingSt).fired =
      pausingSt.fired ++ pausingSt.msgCbs .RO_ACCESS_REPORT) ∧
    (handleMessage ⟨.RO_ACCESS_REPORT, true, true, true⟩ pausingSt =
      { pausingSt with fired :=
          pausingSt.fired ++ pausingSt.msgCbs .RO_ACCESS_REPORT }) ∧
    ((build_protocol (addTagReportCallback ⟨fun _ => []⟩ 7) false true).msgCbs
        .RO_ACCESS_REPORT = (fun (_ : MsgName) => ([] : List Nat))
          .RO_ACCESS_REPORT ++ [7]) :=
  ⟨(message_callbacks_always_fire pausingSt ⟨.RO_ACCESS_REPORT, true, true, true⟩
      ⟨fun _ => []⟩ 7 false true).1,
    (message_callbacks_always_fire pausingSt ⟨.RO_ACCESS_REPORT, true, true, true⟩
      ⟨fun _ => []⟩ 7 false true).2.1 rfl (fun h => St.noConfusion h),
    (message_callbacks_always_fire pausingSt ⟨.RO_ACCESS_REPORT, true, true, true⟩
      ⟨fun _ => []⟩ 7 false true).2.2⟩

end Sllurp
